import Mathlib

/-!
# Image2Text-Pro: upload, extraction workflow, history and result rendering

A shallow embedding of the browser client under `frontend/src`:

* `utils/helpers.js`      : `validateImageFile`
* `components/ImageUpload.js` : `onDrop`, `removeFile`, the dropzone gate
* `App.js`                : `handleImageUpload`, `handleLanguageChange`,
                            `processImage`, `toggleHistory`, `checkAPIHealth`
* `components/History.js` : `fetchHistory`, `deleteItem`
* `components/TextResult.js` : `handleDownload`, `handleCopy`, the render
* `utils/helpers.js`      : `formatFileSize`, `truncateText`
* `utils/api.js`          : the error branches of the response interceptor

React state hooks become record fields, a handler becomes a function from the
state before the event to the state after it, and an `await` splits a handler
into the part that runs before the request is sent and the continuation that
runs when the promise settles.  Values supplied by the browser or the server
(object URLs, responses, errors) are arguments of the handlers.
-/

namespace Image2Text

/-! ## Data model -/

/-- The fields of a browser `File` that the client reads. -/
structure File where
  name : String
  size : Nat
  type : String
deriving DecidableEq, Repr

/-- Body of a successful `POST /api/extract-text` response. -/
structure ExtractionResult where
  extracted_text : String
  confidence : Option Nat
  processing_time : Option String
  language : String
  filename : String
  file_size : Option Nat
deriving DecidableEq, Repr

/-- The arguments of one `apiService.extractText(file, language)` call. -/
structure ExtractionRequest where
  file : File
  language : String
deriving DecidableEq, Repr

/-- The `data` object of an error response; `detail` may be missing. -/
structure ErrorData where
  detail : Option String
deriving DecidableEq, Repr

/-- The `response` object of a rejected request; `data` may be missing. -/
structure ErrorResponse where
  data : Option ErrorData
deriving DecidableEq, Repr

/-- The value a rejected request is caught with: `err.response` and `err.code`,
either of which may be undefined, and whether `err.request` is set. -/
structure RequestError where
  response : Option ErrorResponse
  request : Bool
  code : Option String
deriving DecidableEq, Repr

/-! ## `utils/helpers.js` -/

/-- The object `validateImageFile` returns; `message` is undefined on success. -/
structure Validation where
  valid : Bool
  message : Option String
deriving DecidableEq, Repr

/-- The `validTypes` array of `validateImageFile`. -/
def validTypes : List String :=
  ["image/jpeg", "image/jpg", "image/png", "image/bmp", "image/tiff", "image/webp"]

/-- The `maxSize` constant of `validateImageFile` (20MB). -/
def maxSize : Nat := 20 * 1024 * 1024

/-- Transcription of `validateImageFile(file)`. -/
def validateImageFile (file : File) : Validation :=
  if !(validTypes.contains file.type) then
    { valid := false,
      message := some "Please upload a valid image file (JPEG, PNG, BMP, TIFF, WebP)" }
  else if file.size > maxSize then
    { valid := false,
      message := some "File size too large. Maximum size allowed is 20MB" }
  else
    { valid := true, message := none }

/-! ## `components/ImageUpload.js` -/

/-- The three state hooks of `ImageUpload`. -/
structure UploadState where
  uploadedFile : Option File
  previewUrl : Option String
  error : String
deriving DecidableEq, Repr

/-- State of `ImageUpload` when it mounts. -/
def UploadState.init : UploadState :=
  { uploadedFile := none, previewUrl := none, error := "" }

/-- Transcription of `onDrop(acceptedFiles, rejectedFiles)`.  `url` is the value
`URL.createObjectURL(file)` returns.  Only the length of `rejectedFiles` is read,
so a rejection is represented by its file.  The second component lists the
arguments of the `onImageUpload` calls made, in order. -/
def onDrop (acceptedFiles rejectedFiles : List File) (url : String) (s : UploadState) :
    UploadState × List (Option File) :=
  let s := { s with error := "" }
  if rejectedFiles.length > 0 then
    ({ s with error := "Please upload only image files" }, [])
  else
    match acceptedFiles.head? with
    | none => (s, [])
    | some file =>
      let validation := validateImageFile file
      if !validation.valid then
        -- `message` is always defined on this branch
        ({ s with error := validation.message.getD "" }, [])
      else
        ({ s with uploadedFile := some file, previewUrl := some url }, [some file])

/-- Transcription of `removeFile()`. -/
def removeFile (_s : UploadState) : UploadState × List (Option File) :=
  ({ uploadedFile := none, previewUrl := none, error := "" }, [none])

/-! ## `App.js`: the workflow controller -/

/-- The six state hooks of `App`. -/
structure AppState where
  selectedFile : Option File
  selectedLanguage : String
  isProcessing : Bool
  result : Option ExtractionResult
  error : String
  showHistory : Bool
deriving DecidableEq, Repr

/-- State of `App` when it mounts. -/
def AppState.init : AppState :=
  { selectedFile := none, selectedLanguage := "eng", isProcessing := false,
    result := none, error := "", showHistory := false }

/-- Transcription of the `catch` branch of `checkAPIHealth`. -/
def checkAPIHealthFailed (s : AppState) : AppState :=
  { s with error := "Backend API is not available. Please ensure the server is running." }

/-- Transcription of `handleImageUpload(file)`; `none` is the `null` that
`removeFile` passes. -/
def handleImageUpload (file : Option File) (s : AppState) : AppState :=
  { s with selectedFile := file, result := none, error := "" }

/-- Transcription of `handleLanguageChange(language)`. -/
def handleLanguageChange (language : String) (s : AppState) : AppState :=
  { s with selectedLanguage := language }

/-- Transcription of `toggleHistory()`. -/
def toggleHistory (s : AppState) : AppState :=
  { s with showHistory := !s.showHistory }

/-- The part of `processImage` that runs before the `await`: the new state and
the `apiService.extractText` call issued, if one is. -/
def processImage (s : AppState) : AppState × Option ExtractionRequest :=
  match s.selectedFile with
  | none => ({ s with error := "Please select an image first" }, none)
  | some file =>
    ({ s with isProcessing := true, error := "", result := none },
      some { file := file, language := s.selectedLanguage })

/-- The value of `err.response?.data?.detail`. -/
def RequestError.detail (err : RequestError) : Option String :=
  err.response.bind fun response => response.data.bind fun data => data.detail

/-- The message the `catch` block of `processImage` passes to `setError`. -/
def failureMessage (err : RequestError) : String :=
  let fallback :=
    if err.code = some "NETWORK_ERROR" then
      "Network error. Please check if the backend server is running."
    else
      "Failed to process image. Please try again."
  match err.detail with
  | some detail => if detail ≠ "" then detail else fallback
  | none => fallback

/-- Continuation of `processImage` when the request is rejected with `err`:
the `catch` block followed by the `finally` block. -/
def processImageRejected (err : RequestError) (s : AppState) : AppState :=
  { s with error := failureMessage err, isProcessing := false }

/-- Continuation of `processImage` when the request resolves with body
`response` (`none` for a `null` body).  `setResult(response)` runs first; on a
`null` body the read of `response.extracted_text` then throws a `TypeError`,
which has neither `response` nor `request` nor `code`, into the `catch` block. -/
def processImageResolved (response : Option ExtractionResult) (s : AppState) : AppState :=
  match response with
  | some r => { s with result := some r, isProcessing := false }
  | none =>
    processImageRejected { response := none, request := false, code := none }
      { s with result := none }

/-- The `disabled` attribute of the Extract Text button. -/
def submitDisabled (s : AppState) : Bool :=
  s.selectedFile.isNone || s.isProcessing

/-! ## `components/LanguageSelector.js` -/

/-- An entry of the `languages` array. -/
structure Language where
  code : String
  name : String
deriving DecidableEq, Repr

/-- The `languages` array of `LanguageSelector` (flags omitted). -/
def languages : List Language :=
  [ { code := "eng", name := "English" },
    { code := "hin", name := "Hindi" },
    { code := "eng+hin", name := "English + Hindi" } ]

/-! ## The page as a transition system -/

/-- The page: the controller, the upload handler it renders, the extraction
requests awaiting a response and the log of every `extractText` call made. -/
structure Session where
  app : AppState
  upload : UploadState
  inFlight : List ExtractionRequest
  sent : List ExtractionRequest
deriving DecidableEq, Repr

/-- The page after mounting. -/
def Session.init : Session :=
  { app := AppState.init, upload := UploadState.init, inFlight := [], sent := [] }

/-- What can happen to the page: user actions and settled promises. -/
inductive Event where
  | drop (acceptedFiles rejectedFiles : List File) (url : String)
  | removeFile
  | selectLanguage (code : String)
  | submit
  | toggleHistory
  | healthCheckFailed
  | extractResolved (response : Option ExtractionResult)
  | extractRejected (err : RequestError)
deriving DecidableEq, Repr

/-- Runs the `onImageUpload` calls of the upload handler, which `App` binds to
`handleImageUpload`. -/
def runUploadCalls (calls : List (Option File)) (s : AppState) : AppState :=
  calls.foldl (fun a file => handleImageUpload file a) s

/-- The handler bound to an event, run on the page whether or not the control
that triggers it is enabled. -/
def fire (e : Event) (s : Session) : Session :=
  match e with
  | .drop acceptedFiles rejectedFiles url =>
    let r := onDrop acceptedFiles rejectedFiles url s.upload
    { s with upload := r.1, app := runUploadCalls r.2 s.app }
  | .removeFile =>
    let r := removeFile s.upload
    { s with upload := r.1, app := runUploadCalls r.2 s.app }
  | .selectLanguage code => { s with app := handleLanguageChange code s.app }
  | .submit =>
    let r := processImage s.app
    { s with app := r.1, inFlight := s.inFlight ++ r.2.toList, sent := s.sent ++ r.2.toList }
  | .toggleHistory => { s with app := toggleHistory s.app }
  | .healthCheckFailed => { s with app := checkAPIHealthFailed s.app }
  | .extractResolved response =>
    { s with app := processImageResolved response s.app, inFlight := s.inFlight.tail }
  | .extractRejected err =>
    { s with app := processImageRejected err s.app, inFlight := s.inFlight.tail }

/-- Whether the page lets an event happen: the dropzone is rendered only without
an uploaded file and is disabled while processing, the remove button is rendered
only with an uploaded file and not while processing, the language buttons and the
Extract Text button carry a `disabled` attribute, and a response needs a request
in flight. -/
def enabled (e : Event) (s : Session) : Bool :=
  match e with
  | .drop _ _ _ => s.upload.uploadedFile.isNone && !s.app.isProcessing
  | .removeFile => s.upload.uploadedFile.isSome && !s.app.isProcessing
  | .selectLanguage code => (languages.map (·.code)).contains code && !s.app.isProcessing
  | .submit => !submitDisabled s.app
  | .toggleHistory => true
  | .healthCheckFailed => true
  | .extractResolved _ => !s.inFlight.isEmpty
  | .extractRejected _ => !s.inFlight.isEmpty

/-- One step of the page: an enabled event runs its handler. -/
def step (e : Event) (s : Session) : Option Session :=
  if enabled e s then some (fire e s) else none

/-- The pages reachable from the mounted page by enabled events. -/
inductive Reachable : Session → Prop where
  | init : Reachable Session.init
  | step {s s' : Session} (e : Event) : Reachable s → step e s = some s' → Reachable s'

/-! ## `components/History.js` -/

/-- An element of the `history` array of `GET /api/history`. -/
structure HistoryItem where
  id : Nat
  filename : String
  language : String
  extracted_text : String
  full_text : String
  created_at : String
  file_size : Option Nat
  processing_time : Option String
deriving DecidableEq, Repr

/-- The five state hooks of `History`. -/
structure HistoryState where
  history : List HistoryItem
  loading : Bool
  error : String
  selectedItem : Option HistoryItem
  showModal : Bool
deriving DecidableEq, Repr

/-- State of `History` when it mounts. -/
def HistoryState.init : HistoryState :=
  { history := [], loading := true, error := "", selectedItem := none, showModal := false }

/-- Continuation of `fetchHistory` when `getHistory` resolves; `history` is the
`history` field of the body, `none` when the body has none. -/
def fetchHistoryResolved (history : Option (List HistoryItem)) (s : HistoryState) :
    HistoryState :=
  { s with history := history.getD [], loading := false }

/-- Continuation of `fetchHistory` when `getHistory` is rejected. -/
def fetchHistoryRejected (s : HistoryState) : HistoryState :=
  { s with error := "Failed to load history", loading := false }

/-- Continuation of `deleteItem(itemId)` when the server confirms.  `history` is
the list the handler closed over when it was invoked. -/
def deleteItemResolved (itemId : Nat) (history : List HistoryItem) (s : HistoryState) :
    HistoryState :=
  { s with history := history.filter fun item => item.id != itemId }

/-- Continuation of `deleteItem(itemId)` when the request is rejected. -/
def deleteItemRejected (s : HistoryState) : HistoryState :=
  { s with error := "Failed to delete item" }

/-- A run of `deleteItem(itemId)`: `history` is the list on the page when the
delete button was clicked, which the handler closed over, `confirmed` tells
whether `deleteHistoryItem` resolved, and `s` is the viewer when the request
settles. -/
def deleteItem (itemId : Nat) (history : List HistoryItem) (confirmed : Bool)
    (s : HistoryState) : HistoryState :=
  if confirmed then deleteItemResolved itemId history s else deleteItemRejected s

/-- A `deleteItem` call that awaits the server: its argument and the list it
closed over. -/
structure PendingDelete where
  itemId : Nat
  history : List HistoryItem
deriving DecidableEq, Repr

/-- The history viewer with the delete requests in flight, oldest first. -/
structure HistoryPage where
  view : HistoryState
  pending : List PendingDelete
deriving DecidableEq, Repr

/-- The viewer as mounted: `fetchHistory` is in flight and the loader shows. -/
def HistoryPage.init : HistoryPage := { view := HistoryState.init, pending := [] }

/-- What can happen to the history viewer: the fetch started on mount settles,
a delete button is clicked, or the delete request at a position of the pending
list settles. -/
inductive HistoryEvent where
  | fetchResolved (history : Option (List HistoryItem))
  | fetchRejected
  | clickDelete (itemId : Nat)
  | deleteSettled (index : Nat) (confirmed : Bool)
deriving DecidableEq, Repr

/-- One step of the history viewer.  The fetch settles once, while `loading`;
delete buttons are rendered for the items of the list once the loader is gone,
and a click sends the request with the list then on the page closed over; a
settled request runs the continuation of its own `deleteItem` call. -/
def historyStep (e : HistoryEvent) (p : HistoryPage) : Option HistoryPage :=
  match e with
  | .fetchResolved history =>
    if p.view.loading then some { p with view := fetchHistoryResolved history p.view } else none
  | .fetchRejected =>
    if p.view.loading then some { p with view := fetchHistoryRejected p.view } else none
  | .clickDelete itemId =>
    if !p.view.loading && p.view.history.any (fun item => item.id == itemId) then
      some { p with pending := p.pending ++ [{ itemId := itemId, history := p.view.history }] }
    else none
  | .deleteSettled index confirmed =>
    match p.pending.get? index with
    | none => none
    | some d =>
      some { view := deleteItem d.itemId d.history confirmed p.view,
             pending := p.pending.eraseIdx index }

/-- The history viewer after a sequence of events, if each could happen. -/
def historyRun (events : List HistoryEvent) (p : HistoryPage) : Option HistoryPage :=
  events.foldlM (fun q e => historyStep e q) p

/-! ## `components/TextResult.js` -/

/-- The pieces of `cs.split('.')` for a string given by its characters:
never empty, one more piece than there are dots. -/
def splitDot : List Char → List (List Char)
  | [] => [[]]
  | c :: cs =>
    if c = '.' then [] :: splitDot cs
    else
      match splitDot cs with
      | [] => [[c]]
      | piece :: pieces => (c :: piece) :: pieces

/-- The value of `name.split('.')[0]`. -/
def firstPiece (name : String) : String :=
  String.mk ((splitDot name.data).headD [])

/-- The arguments of a `downloadTextFile(text, filename)` call. -/
structure Download where
  text : String
  filename : String
deriving DecidableEq, Repr

/-- Transcription of `handleDownload()`: the `downloadTextFile` call made, if
one is.  An absent result, an empty text and an empty filename are falsy. -/
def handleDownload (result : Option ExtractionResult) : Option Download :=
  match result with
  | none => none
  | some r =>
    if r.extracted_text ≠ "" ∧ r.filename ≠ "" then
      some { text := r.extracted_text,
             filename := "extracted_text_" ++ firstPiece r.filename ++ ".txt" }
    else none

/-- Follows the words of the specification, not the code: the characters of a
file name with its extension, the part from the last dot on, removed. -/
def dropExtension : List Char → List Char
  | [] => []
  | c :: cs => if '.' ∈ cs then c :: dropExtension cs else if c = '.' then [] else c :: cs

/-- Follows the words of the specification, not the code: the original image
name with its extension replaced by ".txt". -/
def replaceExtensionSpec (name : String) : String :=
  String.mk (dropExtension name.data) ++ ".txt"

/-- The invariant of the page: the upload handler shows the file the controller
holds, and a request is pending exactly while `isProcessing`. -/
def SessionInv (s : Session) : Prop :=
  s.upload.uploadedFile = s.app.selectedFile ∧
  s.inFlight.length = if s.app.isProcessing then 1 else 0

instance SessionInv.decidable (s : Session) : Decidable (SessionInv s) := by
  unfold SessionInv
  infer_instance

/-! ## `utils/api.js` -/

/-- The three cases the response interceptor tells apart on a rejected request,
by what it logs: 'API Error:', 'Network Error:' or 'Error:'. -/
inductive ErrorKind where
  | apiError
  | networkError
  | otherError
deriving DecidableEq, Repr

/-- Transcription of the branches of the response interceptor's error handler
(which then rejects with the same error): a response means the server responded
with an error status, a request without a response means 'Request was made but
no response received', anything else is 'Something else happened'. -/
def responseErrorKind (error : RequestError) : ErrorKind :=
  if error.response.isSome then .apiError
  else if error.request then .networkError
  else .otherError

/-! ## `utils/helpers.js`: formatting -/

/-- The `sizes` array of `formatFileSize`. -/
def sizes : List String := ["Bytes", "KB", "MB", "GB"]

/-- The value of `Math.floor(Math.log(bytes) / Math.log(k))` for `k = 1024` and
a positive `bytes`, read in exact arithmetic: the largest `i` with
`1024 ^ i ≤ bytes`. -/
def unitIndex (bytes : Nat) : Nat := Nat.log 1024 bytes

/-- The number of hundredths in `(num / den).toFixed(2)`: the quotient rounded
to two decimals, a half rounded up. -/
def roundHundredths (num den : Nat) : Nat := (200 * num + den) / (2 * den)

/-- The string of the number that `parseFloat` reads from a `toFixed(2)` output
of `m` hundredths: the decimal without trailing zeros. -/
def showHundredths (m : Nat) : String :=
  let whole := toString (m / 100)
  let frac := m % 100
  if frac = 0 then whole
  else if frac % 10 = 0 then whole ++ "." ++ toString (frac / 10)
  else whole ++ "." ++ toString (frac / 10) ++ toString (frac % 10)

/-- Transcription of `formatFileSize(bytes)`.  An index past the end of `sizes`
reads `undefined`, which the concatenation spells out. -/
def formatFileSize (bytes : Nat) : String :=
  if bytes = 0 then "0 Bytes"
  else
    let i := unitIndex bytes
    showHundredths (roundHundredths bytes (1024 ^ i)) ++ " " ++ (sizes.get? i).getD "undefined"

/-- The UTF-16 code units of a character: itself, or a surrogate pair when it
lies outside the basic plane. -/
def utf16Units (c : Char) : List Nat :=
  if c.toNat < 0x10000 then [c.toNat]
  else [0xD800 + (c.toNat - 0x10000) / 0x400, 0xDC00 + (c.toNat - 0x10000) % 0x400]

/-- A string as the program sees it: its sequence of UTF-16 code units, which
is what `length` counts and `slice` cuts. -/
def toUnits (text : String) : List Nat :=
  (text.data.map utf16Units).flatten

/-- Transcription of `truncateText(text, maxLength)` on the code units of the
text; the default of 100 for `maxLength` is left to the caller.  A cut may fall
inside a surrogate pair, so the result is a sequence of units too. -/
def truncateText (text : List Nat) (maxLength : Nat) : List Nat :=
  if text.length ≤ maxLength then text
  else text.take maxLength ++ toUnits "..."

/-- The preview line of a history item: `truncateText(item.extracted_text, 150)`. -/
def historyPreview (extracted_text : String) : List Nat :=
  truncateText (toUnits extracted_text) 150

/-! ## `components/TextResult.js`: rendering and the copy acknowledgment -/

/-- What a child expression of the details row puts on the page: a `span`
element, or a bare text. -/
inductive Node where
  | span (text : String)
  | text (text : String)
deriving DecidableEq, Repr

/-- The output of `{result.confidence && (<span>Confidence: ...%</span>)}`: an
absent confidence renders nothing, and the falsy number 0 is itself the value of
the expression, which React renders as the text 0. -/
def confidenceNodes (confidence : Option Nat) : List Node :=
  match confidence with
  | none => []
  | some 0 => [.text "0"]
  | some c => [.span ("Confidence: " ++ toString c ++ "%")]

/-- The output of `{result.processing_time && (<span>...</span>)}`; an absent
or empty string renders nothing. -/
def processingTimeNodes (processing_time : Option String) : List Node :=
  match processing_time with
  | none => []
  | some t => if t ≠ "" then [.span ("Processing Time: " ++ t)] else []

/-- The value of `language.toUpperCase()` for a language code, which is ASCII:
each letter a to z becomes its capital. -/
def toUpperCase (language : String) : String :=
  String.mk (language.data.map Char.toUpper)

/-- The output of `{result.language && (<span>...</span>)}`; an empty string
renders nothing. -/
def languageNodes (language : String) : List Node :=
  if language ≠ "" then [.span ("Language: " ++ toUpperCase language)] else []

/-- The string `(num / den).toFixed(1)`: the quotient rounded to one decimal, a
half rounded up. -/
def toFixed1 (num den : Nat) : String :=
  let m := (20 * num + den) / (2 * den)
  toString (m / 10) ++ "." ++ toString (m % 10)

/-- The output of `{result.file_size && (<span>File Size: ... KB</span>)}`. -/
def fileSizeNodes (file_size : Option Nat) : List Node :=
  match file_size with
  | none => []
  | some 0 => [.text "0"]
  | some n => [.span ("File Size: " ++ toFixed1 n 1024 ++ " KB")]

/-- What `TextResult` returns: the loading card, `null`, the card with the
extracted text in a `pre` element above the details row and the file size, or the
card with the message 'No text could be extracted from this image.'. -/
inductive ResultView where
  | loading
  | nothing
  | extracted (text : String) (details : List Node) (fileSize : List Node)
  | noText
deriving DecidableEq, Repr

/-- Transcription of the render of `TextResult({ result, isLoading })`. -/
def TextResult (result : Option ExtractionResult) (isLoading : Bool) : ResultView :=
  if isLoading then .loading
  else
    match result with
    | none => .nothing
    | some r =>
      if r.extracted_text ≠ "" then
        .extracted r.extracted_text
          (confidenceNodes r.confidence ++ processingTimeNodes r.processing_time ++
            languageNodes r.language)
          (fileSizeNodes r.file_size)
      else .noText

/-- The code points `trim` strips: the white space and line terminator
characters of the language. -/
def isWhiteSpace (c : Char) : Bool :=
  [0x9, 0xA, 0xB, 0xC, 0xD, 0x20, 0xA0, 0x1680, 0x2000, 0x2001, 0x2002, 0x2003, 0x2004,
    0x2005, 0x2006, 0x2007, 0x2008, 0x2009, 0x200A, 0x2028, 0x2029, 0x202F, 0x205F, 0x3000,
    0xFEFF].contains c.toNat

/-- The value of `text.trim()`. -/
def trim (text : String) : String :=
  String.mk ((text.data.dropWhile isWhiteSpace).reverse.dropWhile isWhiteSpace).reverse

/-- The condition `response.extracted_text && response.extracted_text.trim()`
under the comment 'Show success message if text was extracted' in
`processImage` (`App.js`); the block it guards is empty. -/
def textWasExtracted (response : ExtractionResult) : Bool :=
  response.extracted_text ≠ "" && trim response.extracted_text ≠ ""

/-- Follows the words of the specification, not the code: a text is blank when
it is empty or holds only whitespace. -/
def isBlankSpec (text : String) : Bool := text.data.all isWhiteSpace

/-- The `copied` hook of `TextResult` with the timers `handleCopy` has set and
not yet seen fire: `now` is the clock in milliseconds and `timers` holds the
times at which the pending `setTimeout` callbacks are due. -/
structure CopyState where
  copied : Bool
  now : Nat
  timers : List Nat
deriving DecidableEq, Repr

/-- The copy button when `TextResult` mounts. -/
def CopyState.init : CopyState := { copied := false, now := 0, timers := [] }

/-- Transcription of `handleCopy()`; `success` is what `copyToClipboard`
returned.  A successful copy sets `copied` and schedules one callback 2000 ms
ahead; no pending callback is cancelled. -/
def handleCopy (result : Option ExtractionResult) (success : Bool) (s : CopyState) :
    CopyState :=
  match result with
  | none => s
  | some r =>
    if r.extracted_text ≠ "" then
      if success then { s with copied := true, timers := s.timers ++ [s.now + 2000] }
      else s
    else s

/-- The clock advances by `ms` milliseconds with no copy in between: every
callback that falls due, taken to run at the time it is due, does
`setCopied(false)`. -/
def elapse (ms : Nat) (s : CopyState) : CopyState :=
  { copied := if s.timers.any (fun t => t ≤ s.now + ms) then false else s.copied,
    now := s.now + ms,
    timers := s.timers.filter fun t => !(t ≤ s.now + ms) }

/-- The label of the copy button. -/
def copyLabel (s : CopyState) : String := if s.copied then "Copied!" else "Copy"

/-! ## Validation and the upload handler (C1 to C4) -/

/-- A file with a type outside `validTypes` gets the type message. -/
theorem validateImageFile_bad_type (file : File) (h : file.type ∉ validTypes) :
    validateImageFile file =
      { valid := false,
        message := some "Please upload a valid image file (JPEG, PNG, BMP, TIFF, WebP)" } := by
  simp [validateImageFile, h]

/-- A file with a type in `validTypes` that is too large gets the size message. -/
theorem validateImageFile_too_large (file : File) (ht : file.type ∈ validTypes)
    (hs : file.size > maxSize) :
    validateImageFile file =
      { valid := false,
        message := some "File size too large. Maximum size allowed is 20MB" } := by
  simp [validateImageFile, ht, hs]

/-- A file with a type in `validTypes` and a size within the limit is accepted. -/
theorem validateImageFile_ok (file : File) (ht : file.type ∈ validTypes)
    (hs : file.size ≤ maxSize) :
    validateImageFile file = { valid := true, message := none } := by
  have hs' : ¬ maxSize < file.size := Nat.not_lt.mpr hs
  simp [validateImageFile, ht, hs']

/-- A rejection by `validateImageFile` always carries a non-empty message. -/
theorem validateImageFile_rejects (file : File) (h : (validateImageFile file).valid = false) :
    ∃ m, (validateImageFile file).message = some m ∧ m ≠ "" := by
  by_cases ht : file.type ∈ validTypes
  · by_cases hs : file.size ≤ maxSize
    · rw [validateImageFile_ok file ht hs] at h
      simp at h
    · rw [validateImageFile_too_large file ht (Nat.lt_of_not_le hs)]
      exact ⟨_, rfl, by decide⟩
  · rw [validateImageFile_bad_type file ht]
    exact ⟨_, rfl, by decide⟩

/-- With a rejection from the dropzone `onDrop` only sets the error. -/
theorem onDrop_rejected (acceptedFiles rejectedFiles : List File) (url : String)
    (s : UploadState) (h : rejectedFiles ≠ []) :
    onDrop acceptedFiles rejectedFiles url s =
      ({ s with error := "Please upload only image files" }, []) := by
  have hl : rejectedFiles.length > 0 := List.length_pos.mpr h
  simp [onDrop, hl]

/-- With no rejection and a first file that fails validation `onDrop` only sets
the error, to the validation message. -/
theorem onDrop_invalid (acceptedFiles : List File) (url : String) (s : UploadState)
    (file : File) (hf : acceptedFiles.head? = some file) (m : String)
    (hv : validateImageFile file = { valid := false, message := some m }) :
    onDrop acceptedFiles [] url s = ({ s with error := m }, []) := by
  simp [onDrop, hf, hv]

/-- Running no `onImageUpload` call leaves the controller as it is. -/
theorem runUploadCalls_nil (s : AppState) : runUploadCalls [] s = s := rfl

/-- C1: a file whose MIME type is not in `validTypes` is rejected by
`validateImageFile` with a non-empty message; `onDrop` never passes such a file
to `onImageUpload`, and when it is the dropped file (first accepted file, or
among the rejected ones) `onDrop` makes no `onImageUpload` call at all, so the
controller is unchanged and no extraction request is issued or pending. -/
theorem C1_invalid_type_rejected_no_request (file : File) (h : file.type ∉ validTypes) :
    (∃ m, validateImageFile file = { valid := false, message := some m } ∧ m ≠ "") ∧
    (∀ (acceptedFiles rejectedFiles : List File) (url : String) (u : UploadState),
      some file ∉ (onDrop acceptedFiles rejectedFiles url u).2) ∧
    (∀ (acceptedFiles rejectedFiles : List File) (url : String) (s : Session),
      acceptedFiles.head? = some file ∨ file ∈ rejectedFiles →
        (onDrop acceptedFiles rejectedFiles url s.upload).2 = [] ∧
        (fire (.drop acceptedFiles rejectedFiles url) s).app = s.app ∧
        (fire (.drop acceptedFiles rejectedFiles url) s).sent = s.sent ∧
        (fire (.drop acceptedFiles rejectedFiles url) s).inFlight = s.inFlight) := by
  have hv := validateImageFile_bad_type file h
  refine ⟨⟨_, hv, by decide⟩, ?_, ?_⟩
  · intro acceptedFiles rejectedFiles url u
    by_cases hr : rejectedFiles = []
    · subst hr
      cases hf : acceptedFiles.head? with
      | none => simp [onDrop, hf]
      | some g =>
        by_cases hg : (validateImageFile g).valid = true
        · have hne : g ≠ file := by
            rintro rfl
            rw [hv] at hg
            simp at hg
          simp [onDrop, hf, hg, Ne.symm hne]
        · simp [onDrop, hf, hg]
    · rw [onDrop_rejected _ _ _ _ hr]
      simp
  · intro acceptedFiles rejectedFiles url s hd
    have hcalls : (onDrop acceptedFiles rejectedFiles url s.upload).2 = [] := by
      by_cases hr : rejectedFiles = []
      · subst hr
        rcases hd with hf | hmem
        · rw [onDrop_invalid acceptedFiles url s.upload file hf _ hv]
        · simp at hmem
      · rw [onDrop_rejected _ _ _ _ hr]
    refine ⟨hcalls, ?_, rfl, rfl⟩
    show runUploadCalls (onDrop acceptedFiles rejectedFiles url s.upload).2 s.app = s.app
    rw [hcalls, runUploadCalls_nil]

/-- Witness for C1: a GIF is rejected with a message. -/
theorem C1_invalid_type_rejected_no_request_witness :
    "image/gif" ∉ validTypes ∧
    ∃ m, validateImageFile { name := "anim.gif", size := 1024, type := "image/gif" } =
      { valid := false, message := some m } ∧ m ≠ "" :=
  ⟨by decide,
   (C1_invalid_type_rejected_no_request
      { name := "anim.gif", size := 1024, type := "image/gif" } (by decide)).1⟩

/-- C2: a file larger than 20 MB (20 * 1024 * 1024 bytes) is rejected by
`validateImageFile` with a non-empty message, whatever its MIME type. -/
theorem C2_oversize_rejected (file : File) (h : file.size > 20 * 1024 * 1024) :
    ∃ m, validateImageFile file = { valid := false, message := some m } ∧ m ≠ "" := by
  by_cases ht : file.type ∈ validTypes
  · exact ⟨_, validateImageFile_too_large file ht h, by decide⟩
  · exact ⟨_, validateImageFile_bad_type file ht, by decide⟩

/-- Witness for C2: a PNG one byte over the limit is rejected. -/
theorem C2_oversize_rejected_witness :
    ∃ m, validateImageFile { name := "big.png", size := 20971521, type := "image/png" } =
      { valid := false, message := some m } ∧ m ≠ "" :=
  C2_oversize_rejected { name := "big.png", size := 20971521, type := "image/png" } (by decide)

/-- C3: `validateImageFile` returns `valid = true` with no message exactly when
the MIME type is one of the listed JPEG, PNG, BMP, TIFF and WebP types and the
size is at most 20 * 1024 * 1024 bytes; a file of exactly that size with a
listed type is accepted. -/
theorem C3_accepts_iff_type_and_size :
    (∀ file : File,
      validateImageFile file = { valid := true, message := none } ↔
        file.type ∈ ["image/jpeg", "image/jpg", "image/png", "image/bmp", "image/tiff",
          "image/webp"] ∧ file.size ≤ 20 * 1024 * 1024) ∧
    (∀ file : File, (validateImageFile file).valid = true ↔
        validateImageFile file = { valid := true, message := none }) ∧
    (∀ (name type : String),
      type ∈ ["image/jpeg", "image/jpg", "image/png", "image/bmp", "image/tiff",
          "image/webp"] →
        validateImageFile { name := name, size := 20 * 1024 * 1024, type := type } =
          { valid := true, message := none }) := by
  have key : ∀ file : File,
      validateImageFile file = { valid := true, message := none } ↔
        file.type ∈ validTypes ∧ file.size ≤ maxSize := by
    intro file
    constructor
    · intro hv
      by_cases ht : file.type ∈ validTypes
      · refine ⟨ht, ?_⟩
        by_contra hs
        rw [validateImageFile_too_large file ht (Nat.lt_of_not_le hs)] at hv
        simp at hv
      · rw [validateImageFile_bad_type file ht] at hv
        simp at hv
    · rintro ⟨ht, hs⟩
      exact validateImageFile_ok file ht hs
  refine ⟨key, ?_, ?_⟩
  · intro file
    constructor
    · intro hv
      by_cases ht : file.type ∈ validTypes
      · by_cases hs : file.size ≤ maxSize
        · exact validateImageFile_ok file ht hs
        · rw [validateImageFile_too_large file ht (Nat.lt_of_not_le hs)] at hv
          simp at hv
      · rw [validateImageFile_bad_type file ht] at hv
        simp at hv
    · intro hv
      rw [hv]
  · intro name type ht
    exact validateImageFile_ok _ ht (Nat.le_refl _)

/-- Witness for C3: a WebP of exactly 20 MB is accepted. -/
theorem C3_accepts_iff_type_and_size_witness :
    validateImageFile { name := "scan.webp", size := 20 * 1024 * 1024, type := "image/webp" } =
      { valid := true, message := none } :=
  C3_accepts_iff_type_and_size.2.2 "scan.webp" "image/webp" (by decide)

/-- C4: when an upload is rejected, by the dropzone or by `validateImageFile`,
`onDrop` changes nothing of the upload handler but its error, which becomes a
non-empty message (`uploadedFile` and `previewUrl` keep their values), and the
controller, the pending requests and the request log are untouched. -/
theorem C4_rejected_upload_keeps_selection (acceptedFiles rejectedFiles : List File)
    (url : String) (s : Session)
    (h : rejectedFiles ≠ [] ∨
      ∃ file, acceptedFiles.head? = some file ∧ (validateImageFile file).valid = false) :
    (∃ m, m ≠ "" ∧
      (fire (.drop acceptedFiles rejectedFiles url) s).upload = { s.upload with error := m }) ∧
    (fire (.drop acceptedFiles rejectedFiles url) s).upload.uploadedFile =
      s.upload.uploadedFile ∧
    (fire (.drop acceptedFiles rejectedFiles url) s).upload.previewUrl =
      s.upload.previewUrl ∧
    (fire (.drop acceptedFiles rejectedFiles url) s).app = s.app ∧
    (fire (.drop acceptedFiles rejectedFiles url) s).inFlight = s.inFlight ∧
    (fire (.drop acceptedFiles rejectedFiles url) s).sent = s.sent := by
  have key : ∃ m, m ≠ "" ∧
      onDrop acceptedFiles rejectedFiles url s.upload = ({ s.upload with error := m }, []) := by
    by_cases hr : rejectedFiles = []
    · subst hr
      rcases h with h | ⟨file, hf, hv⟩
      · exact absurd rfl h
      · obtain ⟨m, hm, hne⟩ := validateImageFile_rejects file hv
        refine ⟨m, hne, onDrop_invalid acceptedFiles url s.upload file hf m ?_⟩
        cases hval : validateImageFile file with
        | mk valid message =>
          rw [hval] at hv hm
          simp at hv hm
          simp [hv, hm]
    · exact ⟨_, by decide, onDrop_rejected _ _ _ _ hr⟩
  obtain ⟨m, hne, hd⟩ := key
  have hu : (fire (.drop acceptedFiles rejectedFiles url) s).upload =
      { s.upload with error := m } := by
    show (onDrop acceptedFiles rejectedFiles url s.upload).1 = _
    rw [hd]
  have ha : (fire (.drop acceptedFiles rejectedFiles url) s).app = s.app := by
    show runUploadCalls (onDrop acceptedFiles rejectedFiles url s.upload).2 s.app = s.app
    rw [hd, runUploadCalls_nil]
  refine ⟨⟨m, hne, hu⟩, ?_, ?_, ha, rfl, rfl⟩
  · rw [hu]
  · rw [hu]

/-- Witness for C4: dropping a GIF on the page as mounted. -/
theorem C4_rejected_upload_keeps_selection_witness :
    (fire (.drop [{ name := "anim.gif", size := 1024, type := "image/gif" }] [] "blob:1")
      Session.init).app = Session.init.app :=
  (C4_rejected_upload_keeps_selection
    [{ name := "anim.gif", size := 1024, type := "image/gif" }] [] "blob:1" Session.init
    (Or.inr ⟨_, rfl, by decide⟩)).2.2.2.1

/-! ## The workflow controller (C5 to C8) -/

/-- The message stored for a failure with a non-empty server detail. -/
theorem failureMessage_detail (err : RequestError) (d : String) (hd : err.detail = some d)
    (hne : d ≠ "") : failureMessage err = d := by
  simp [failureMessage, hd, hne]

/-- The message stored for a failure without a usable server detail. -/
theorem failureMessage_no_detail (err : RequestError)
    (hd : err.detail = none ∨ err.detail = some "") :
    failureMessage err =
      if err.code = some "NETWORK_ERROR" then
        "Network error. Please check if the backend server is running."
      else "Failed to process image. Please try again." := by
  rcases hd with hd | hd <;> simp [failureMessage, hd]

/-- The stored failure message is never empty. -/
theorem failureMessage_ne_empty (err : RequestError) : failureMessage err ≠ "" := by
  cases hd : err.detail with
  | none =>
    rw [failureMessage_no_detail err (Or.inl hd)]
    split <;> decide
  | some d =>
    by_cases hne : d = ""
    · subst hne
      rw [failureMessage_no_detail err (Or.inr hd)]
      split <;> decide
    · rw [failureMessage_detail err d hd hne]
      exact hne

/-- The `onImageUpload` calls never touch `isProcessing`. -/
theorem runUploadCalls_isProcessing (calls : List (Option File)) (s : AppState) :
    (runUploadCalls calls s).isProcessing = s.isProcessing := by
  induction calls generalizing s with
  | nil => rfl
  | cons file calls ih =>
    show (runUploadCalls calls (handleImageUpload file s)).isProcessing = _
    rw [ih]
    rfl

/-- An enabled event runs its handler. -/
theorem step_eq_fire {e : Event} {s s' : Session} (h : step e s = some s') : s' = fire e s := by
  unfold step at h
  split at h
  · exact (Option.some.inj h).symm
  · exact absurd h (by simp)

/-- An event happens only when the page enables it. -/
theorem step_enabled {e : Event} {s s' : Session} (h : step e s = some s') :
    enabled e s = true := by
  unfold step at h
  split at h
  · assumption
  · exact absurd h (by simp)

/-- How the `catch` block of `processImage` picks the message: a non-empty
server detail verbatim, whatever else the error carries; without one the
network-error message when the code is the literal NETWORK_ERROR, and the generic
message for every other code. -/
theorem processImageRejected_precedence (err : RequestError) (s : AppState) :
    (∀ d, err.detail = some d → d ≠ "" → (processImageRejected err s).error = d) ∧
    (err.detail = none ∨ err.detail = some "" → err.code = some "NETWORK_ERROR" →
      (processImageRejected err s).error =
        "Network error. Please check if the backend server is running.") ∧
    (err.detail = none ∨ err.detail = some "" → err.code ≠ some "NETWORK_ERROR" →
      (processImageRejected err s).error = "Failed to process image. Please try again.") := by
  refine ⟨?_, ?_, ?_⟩
  · intro d hd hne
    show failureMessage err = d
    exact failureMessage_detail err d hd hne
  · intro hd hc
    show failureMessage err = _
    rw [failureMessage_no_detail err hd, if_pos hc]
  · intro hd hc
    show failureMessage err = _
    rw [failureMessage_no_detail err hd, if_neg hc]

/-- A rejection without a response stores the generic message unless its code is
the literal NETWORK_ERROR, whether or not a request was made. -/
theorem processImageRejected_no_response (err : RequestError) (s : AppState)
    (hr : err.response = none) (hc : err.code ≠ some "NETWORK_ERROR") :
    (processImageRejected err s).error = "Failed to process image. Please try again." := by
  have hd : err.detail = none := by simp [RequestError.detail, hr]
  show failureMessage err = _
  rw [failureMessage_no_detail err (Or.inl hd), if_neg hc]

/-- C5 at an unreachable backend: the request was made and no response came,
which the response interceptor classes as a network error, and the error carries
the code ERR_NETWORK; `processImage` stores the generic message, not the
network-error message. -/
theorem C5_unreachable_backend_stores_generic_message :
    responseErrorKind { response := none, request := true, code := some "ERR_NETWORK" } =
      .networkError ∧
    (processImageRejected { response := none, request := true, code := some "ERR_NETWORK" }
        AppState.init).error = "Failed to process image. Please try again." ∧
    (processImageRejected { response := none, request := true, code := some "ERR_NETWORK" }
        AppState.init).error ≠
      "Network error. Please check if the backend server is running." := by
  decide

/-- C6: every step of the page runs the handler of its event, and for the
handlers, enabled or not: `isProcessing` turns true only in `processImage` with
a selected file, which issues one request for it; whenever `isProcessing` turns
false a response has settled and the state holds a result or a non-empty error;
and `processImage` without a selected file only sets the error
'Please select an image first', issuing no request. -/
theorem C6_processing_entered_and_left :
    (∀ (e : Event) (s s' : Session), step e s = some s' → s' = fire e s) ∧
    (∀ (e : Event) (s : Session),
      s.app.isProcessing = false → (fire e s).app.isProcessing = true →
        e = .submit ∧ ∃ file, s.app.selectedFile = some file ∧
          (fire e s).sent = s.sent ++ [{ file := file, language := s.app.selectedLanguage }]) ∧
    (∀ (e : Event) (s : Session),
      s.app.isProcessing = true → (fire e s).app.isProcessing = false →
        ((∃ response, e = .extractResolved response) ∨ (∃ err, e = .extractRejected err)) ∧
        ((fire e s).app.result ≠ none ∨ (fire e s).app.error ≠ "")) ∧
    (∀ s : AppState, s.selectedFile = none →
      processImage s = ({ s with error := "Please select an image first" }, none)) ∧
    (∀ s : Session, s.app.selectedFile = none →
      fire .submit s = { s with app := { s.app with error := "Please select an image first" } })
    := by
  refine ⟨fun e s s' h => step_eq_fire h, ?_, ?_, ?_, ?_⟩
  · intro e s h0 h1
    cases e with
    | drop a r u =>
      exfalso
      have : (fire (.drop a r u) s).app.isProcessing = s.app.isProcessing := by
        exact runUploadCalls_isProcessing _ _
      rw [this, h0] at h1
      exact absurd h1 (by simp)
    | removeFile =>
      exfalso
      have : (fire .removeFile s).app.isProcessing = s.app.isProcessing := rfl
      rw [this, h0] at h1
      exact absurd h1 (by simp)
    | selectLanguage c =>
      exfalso
      have : (fire (.selectLanguage c) s).app.isProcessing = s.app.isProcessing := rfl
      rw [this, h0] at h1
      exact absurd h1 (by simp)
    | submit =>
      refine ⟨rfl, ?_⟩
      cases hf : s.app.selectedFile with
      | none =>
        exfalso
        have : (fire .submit s).app.isProcessing = s.app.isProcessing := by
          simp [fire, processImage, hf]
        rw [this, h0] at h1
        exact absurd h1 (by simp)
      | some file =>
        refine ⟨file, rfl, ?_⟩
        simp [fire, processImage, hf]
    | toggleHistory =>
      exfalso
      have : (fire .toggleHistory s).app.isProcessing = s.app.isProcessing := rfl
      rw [this, h0] at h1
      exact absurd h1 (by simp)
    | healthCheckFailed =>
      exfalso
      have : (fire .healthCheckFailed s).app.isProcessing = s.app.isProcessing := rfl
      rw [this, h0] at h1
      exact absurd h1 (by simp)
    | extractResolved response =>
      exfalso
      have : (fire (.extractResolved response) s).app.isProcessing = false := by
        cases response <;> rfl
      rw [this] at h1
      exact absurd h1 (by simp)
    | extractRejected err =>
      exfalso
      have : (fire (.extractRejected err) s).app.isProcessing = false := rfl
      rw [this] at h1
      exact absurd h1 (by simp)
  · intro e s h1 h0
    cases e with
    | drop a r u =>
      exfalso
      have : (fire (.drop a r u) s).app.isProcessing = s.app.isProcessing := by
        exact runUploadCalls_isProcessing _ _
      rw [this, h1] at h0
      exact absurd h0 (by simp)
    | removeFile =>
      exfalso
      have : (fire .removeFile s).app.isProcessing = s.app.isProcessing := rfl
      rw [this, h1] at h0
      exact absurd h0 (by simp)
    | selectLanguage c =>
      exfalso
      have : (fire (.selectLanguage c) s).app.isProcessing = s.app.isProcessing := rfl
      rw [this, h1] at h0
      exact absurd h0 (by simp)
    | submit =>
      exfalso
      cases hf : s.app.selectedFile with
      | none =>
        have : (fire .submit s).app.isProcessing = s.app.isProcessing := by
          simp [fire, processImage, hf]
        rw [this, h1] at h0
        exact absurd h0 (by simp)
      | some file =>
        have : (fire .submit s).app.isProcessing = true := by
          simp [fire, processImage, hf]
        rw [this] at h0
        exact absurd h0 (by simp)
    | toggleHistory =>
      exfalso
      have : (fire .toggleHistory s).app.isProcessing = s.app.isProcessing := rfl
      rw [this, h1] at h0
      exact absurd h0 (by simp)
    | healthCheckFailed =>
      exfalso
      have : (fire .healthCheckFailed s).app.isProcessing = s.app.isProcessing := rfl
      rw [this, h1] at h0
      exact absurd h0 (by simp)
    | extractResolved response =>
      refine ⟨Or.inl ⟨response, rfl⟩, ?_⟩
      cases response with
      | none =>
        right
        exact failureMessage_ne_empty { response := none, request := false, code := none }
      | some r =>
        left
        show some r ≠ none
        simp
    | extractRejected err =>
      exact ⟨Or.inr ⟨err, rfl⟩, Or.inr (failureMessage_ne_empty err)⟩
  · intro s hf
    simp [processImage, hf]
  · intro s hf
    simp [fire, processImage, hf]

/-- Witness for C6: a submit on a page with a selected file enters Processing. -/
theorem C6_processing_entered_and_left_witness :
    (.submit : Event) = .submit ∧
    ∃ file,
      (fire (.drop [{ name := "a.png", size := 10, type := "image/png" }] [] "blob:1")
        Session.init).app.selectedFile = some file ∧
      (fire .submit (fire (.drop [{ name := "a.png", size := 10, type := "image/png" }]
        [] "blob:1") Session.init)).sent =
        (fire (.drop [{ name := "a.png", size := 10, type := "image/png" }] [] "blob:1")
          Session.init).sent ++
        [{ file := file,
           language := (fire (.drop [{ name := "a.png", size := 10, type := "image/png" }]
             [] "blob:1") Session.init).app.selectedLanguage }] :=
  C6_processing_entered_and_left.2.1 .submit
    (fire (.drop [{ name := "a.png", size := 10, type := "image/png" }] [] "blob:1")
      Session.init) (by decide) (by decide)

/-- What `onDrop` can do: leave the shown file alone and call nothing, or show
the first accepted file and pass it to `onImageUpload`. -/
theorem onDrop_cases (acceptedFiles rejectedFiles : List File) (url : String)
    (s : UploadState) :
    ((onDrop acceptedFiles rejectedFiles url s).1.uploadedFile = s.uploadedFile ∧
      (onDrop acceptedFiles rejectedFiles url s).2 = []) ∨
    ∃ file, acceptedFiles.head? = some file ∧ (validateImageFile file).valid = true ∧
      (onDrop acceptedFiles rejectedFiles url s).1.uploadedFile = some file ∧
      (onDrop acceptedFiles rejectedFiles url s).2 = [some file] := by
  by_cases hr : rejectedFiles = []
  · subst hr
    cases hf : acceptedFiles.head? with
    | none =>
      left
      simp [onDrop, hf]
    | some file =>
      by_cases hv : (validateImageFile file).valid = true
      · right
        exact ⟨file, rfl, hv, by simp [onDrop, hf, hv], by simp [onDrop, hf, hv]⟩
      · left
        simp [onDrop, hf, hv]
  · left
    rw [onDrop_rejected _ _ _ _ hr]
    exact ⟨rfl, rfl⟩

/-- The invariant holds when the page mounts. -/
theorem sessionInv_init : SessionInv Session.init := by
  decide

/-- Every step of the page preserves the invariant. -/
theorem sessionInv_step {e : Event} {s s' : Session} (hi : SessionInv s)
    (h : step e s = some s') : SessionInv s' := by
  have he := step_enabled h
  have hs := step_eq_fire h
  subst hs
  obtain ⟨hsync, hlen⟩ := hi
  cases e with
  | drop a r u =>
    have hp : (fire (.drop a r u) s).app.isProcessing = s.app.isProcessing :=
      runUploadCalls_isProcessing _ _
    refine ⟨?_, ?_⟩
    · show (onDrop a r u s.upload).1.uploadedFile =
        (runUploadCalls (onDrop a r u s.upload).2 s.app).selectedFile
      rcases onDrop_cases a r u s.upload with ⟨h1, h2⟩ | ⟨file, _, _, h1, h2⟩
      · rw [h1, h2, runUploadCalls_nil]
        exact hsync
      · rw [h1, h2]
        rfl
    · rw [hp]
      exact hlen
  | removeFile => exact ⟨rfl, hlen⟩
  | selectLanguage c => exact ⟨hsync, hlen⟩
  | submit =>
    simp only [enabled, submitDisabled, Bool.not_eq_true', Bool.or_eq_false_iff] at he
    obtain ⟨hfile, hproc⟩ := he
    cases hf : s.app.selectedFile with
    | none => simp [hf] at hfile
    | some file =>
      rw [hproc] at hlen
      have hnil : s.inFlight = [] := List.length_eq_zero.mp (by simpa using hlen)
      refine ⟨?_, ?_⟩
      · simp [fire, processImage, hf, hsync]
      · simp [fire, processImage, hf, hnil]
  | toggleHistory => exact ⟨hsync, hlen⟩
  | healthCheckFailed => exact ⟨hsync, hlen⟩
  | extractResolved response =>
    have hne : s.inFlight ≠ [] := by
      intro hnil
      simp [enabled, hnil] at he
    have hproc : s.app.isProcessing = true := by
      by_contra hp
      simp [hp] at hlen
      exact hne hlen
    rw [hproc] at hlen
    have hp' : (fire (.extractResolved response) s).app.isProcessing = false := by
      cases response <;> rfl
    refine ⟨?_, ?_⟩
    · cases response <;> exact hsync
    · rw [hp']
      show s.inFlight.tail.length = 0
      rw [List.length_tail]
      simp at hlen
      omega
  | extractRejected err =>
    have hne : s.inFlight ≠ [] := by
      intro hnil
      simp [enabled, hnil] at he
    have hproc : s.app.isProcessing = true := by
      by_contra hp
      simp [hp] at hlen
      exact hne hlen
    rw [hproc] at hlen
    refine ⟨hsync, ?_⟩
    show s.inFlight.tail.length = 0
    rw [List.length_tail]
    simp at hlen
    omega

/-- The invariant holds on every reachable page. -/
theorem sessionInv_reachable {s : Session} (hr : Reachable s) : SessionInv s := by
  induction hr with
  | init => exact sessionInv_init
  | step e _ h ih => exact sessionInv_step ih h

/-- C7: on every reachable page at most one extraction request is pending, and
one is exactly while `isProcessing`; the Extract Text button is enabled exactly
when a file is selected and `isProcessing` is false; while `isProcessing` the
submit button, the dropzone, the remove button and the language buttons are all
disabled and no step issues a request; and an enabled submit issues exactly one
`extractText` call, for the selected file and language. -/
theorem C7_one_request_at_a_time (s : Session) (hr : Reachable s) :
    s.inFlight.length ≤ 1 ∧
    (s.app.isProcessing = true ↔ s.inFlight.length = 1) ∧
    (enabled .submit s = true ↔ s.app.selectedFile ≠ none ∧ s.app.isProcessing = false) ∧
    (s.app.isProcessing = true →
      enabled .submit s = false ∧ enabled .removeFile s = false ∧
      (∀ a r u, enabled (.drop a r u) s = false) ∧
      (∀ c, enabled (.selectLanguage c) s = false) ∧
      (∀ e s', step e s = some s' → s'.sent = s.sent)) ∧
    (∀ s', step .submit s = some s' →
      ∃ file, s.app.selectedFile = some file ∧
        s'.sent = s.sent ++ [{ file := file, language := s.app.selectedLanguage }] ∧
        s'.inFlight = [{ file := file, language := s.app.selectedLanguage }] ∧
        s'.app.isProcessing = true) := by
  obtain ⟨_, hlen⟩ := sessionInv_reachable hr
  have hsub : enabled .submit s = true ↔
      s.app.selectedFile ≠ none ∧ s.app.isProcessing = false := by
    cases hf : s.app.selectedFile <;> cases hp : s.app.isProcessing <;>
      simp [enabled, submitDisabled, hf, hp]
  refine ⟨?_, ?_, hsub, ?_, ?_⟩
  · rw [hlen]
    split <;> simp
  · rw [hlen]
    cases s.app.isProcessing <;> simp
  · intro hp
    refine ⟨?_, ?_, ?_, ?_, ?_⟩
    · simp [enabled, submitDisabled, hp]
    · simp [enabled, hp]
    · intro a r u
      simp [enabled, hp]
    · intro c
      simp [enabled, hp]
    · intro e s' h
      have he := step_enabled h
      have hs := step_eq_fire h
      subst hs
      cases e with
      | submit => simp [enabled, submitDisabled, hp] at he
      | drop a r u => rfl
      | removeFile => rfl
      | selectLanguage c => rfl
      | toggleHistory => rfl
      | healthCheckFailed => rfl
      | extractResolved response => rfl
      | extractRejected err => rfl
  · intro s' h
    have he := hsub.1 (step_enabled h)
    have hs := step_eq_fire h
    subst hs
    obtain ⟨hfile, hproc⟩ := he
    rw [hproc] at hlen
    have hnil : s.inFlight = [] := List.length_eq_zero.mp (by simpa using hlen)
    cases hf : s.app.selectedFile with
    | none => exact absurd hf hfile
    | some file =>
      exact ⟨file, rfl, by simp [fire, processImage, hf], by simp [fire, processImage, hf, hnil],
        by simp [fire, processImage, hf]⟩

/-- Witness for C7: the page after a PNG was dropped and submitted. -/
theorem C7_one_request_at_a_time_witness :
    (fire .submit (fire (.drop [{ name := "a.png", size := 10, type := "image/png" }] []
      "blob:1") Session.init)).inFlight.length ≤ 1 ∧
    enabled .submit (fire .submit (fire (.drop
      [{ name := "a.png", size := 10, type := "image/png" }] [] "blob:1")
      Session.init)) = false :=
  have h := C7_one_request_at_a_time
    (fire .submit (fire (.drop [{ name := "a.png", size := 10, type := "image/png" }] []
      "blob:1") Session.init))
    (Reachable.step .submit
      (Reachable.step (.drop [{ name := "a.png", size := 10, type := "image/png" }] []
        "blob:1") Reachable.init rfl)
      rfl)
  ⟨h.1, (h.2.2.2.1 (by decide)).1⟩

/-- C8: each of the three failure branches of `processImage` stores a non-empty
error: the stored message is a non-empty server detail, the network-error
message or the generic message, and in every case differs from the empty string;
so does the failure raised on a resolved request with a null body. -/
theorem C8_failure_error_non_empty :
    (∀ (err : RequestError) (s : AppState),
      (processImageRejected err s).error ≠ "" ∧
      (processImageRejected err s).isProcessing = false ∧
      ((∃ d, err.detail = some d ∧ d ≠ "" ∧ (processImageRejected err s).error = d) ∨
        (processImageRejected err s).error =
          "Network error. Please check if the backend server is running." ∨
        (processImageRejected err s).error = "Failed to process image. Please try again.")) ∧
    (∀ (err : RequestError) (s : Session), (fire (.extractRejected err) s).app.error ≠ "") ∧
    (∀ s : AppState, (processImageResolved none s).error ≠ "") := by
  refine ⟨?_, ?_, ?_⟩
  · intro err s
    refine ⟨failureMessage_ne_empty err, rfl, ?_⟩
    show (∃ d, err.detail = some d ∧ d ≠ "" ∧ failureMessage err = d) ∨
      failureMessage err = _ ∨ failureMessage err = _
    cases hd : err.detail with
    | none =>
      right
      rw [failureMessage_no_detail err (Or.inl hd)]
      by_cases hc : err.code = some "NETWORK_ERROR"
      · exact Or.inl (if_pos hc)
      · exact Or.inr (if_neg hc)
    | some d =>
      by_cases hne : d = ""
      · right
        subst hne
        rw [failureMessage_no_detail err (Or.inr hd)]
        by_cases hc : err.code = some "NETWORK_ERROR"
        · exact Or.inl (if_pos hc)
        · exact Or.inr (if_neg hc)
      · left
        exact ⟨d, rfl, hne, failureMessage_detail err d hd hne⟩
  · intro err s
    exact failureMessage_ne_empty err
  · intro s
    exact failureMessage_ne_empty { response := none, request := false, code := none }

/-! ## The history viewer (C9) -/

/-- C9: a run of `deleteItem` removes the item exactly when the server confirms.
On confirmation the list, whichever list the handler closed over, holds no item
with that id; on failure the viewer is the viewer before the request settled with
the error 'Failed to delete item', its list untouched; so an item of the list
with that id is gone after the run if and only if the deletion was confirmed. -/
theorem C9_delete_iff_confirmed (itemId : Nat) (s : HistoryState) :
    (∀ (history : List HistoryItem),
      ∀ item ∈ (deleteItem itemId history true s).history, item.id ≠ itemId) ∧
    (∀ (history : List HistoryItem),
      ∀ item ∈ (deleteItemResolved itemId history s).history, item.id ≠ itemId) ∧
    (∀ (history : List HistoryItem), (deleteItem itemId history true s).error = s.error) ∧
    (∀ (history : List HistoryItem), (deleteItem itemId history false s).history = s.history) ∧
    (∀ (history : List HistoryItem),
      deleteItem itemId history false s = { s with error := "Failed to delete item" }) ∧
    (∀ (history : List HistoryItem), ∀ item ∈ s.history, item.id = itemId →
      ∀ confirmed,
        item ∉ (deleteItem itemId history confirmed s).history ↔ confirmed = true) := by
  have hres : ∀ (history : List HistoryItem),
      ∀ item ∈ (deleteItemResolved itemId history s).history, item.id ≠ itemId := by
    intro history item hmem
    have := (List.mem_filter.mp hmem).2
    simpa using this
  refine ⟨hres, hres, fun _ => rfl, fun _ => rfl, fun _ => rfl, ?_⟩
  intro history item hmem hid confirmed
  cases confirmed with
  | true =>
    refine ⟨fun _ => rfl, fun _ hin => ?_⟩
    exact hres history item hin hid
  | false =>
    constructor
    · intro hnot
      exact absurd hmem hnot
    · intro hc
      exact absurd hc (by simp)

/-- Witness for C9: deleting item 2 of a two-item list, clicked on that list. -/
theorem C9_delete_iff_confirmed_witness :
    ∀ confirmed,
      ({ id := 2, filename := "b.png", language := "eng", extracted_text := "B",
         full_text := "B", created_at := "2024-01-02", file_size := none,
         processing_time := none } : HistoryItem) ∉
        (deleteItem 2
          [{ id := 1, filename := "a.png", language := "eng", extracted_text := "A",
             full_text := "A", created_at := "2024-01-01", file_size := none,
             processing_time := none },
           { id := 2, filename := "b.png", language := "eng", extracted_text := "B",
             full_text := "B", created_at := "2024-01-02", file_size := none,
             processing_time := none }]
          confirmed
          { history :=
              [{ id := 1, filename := "a.png", language := "eng", extracted_text := "A",
                 full_text := "A", created_at := "2024-01-01", file_size := none,
                 processing_time := none },
               { id := 2, filename := "b.png", language := "eng", extracted_text := "B",
                 full_text := "B", created_at := "2024-01-02", file_size := none,
                 processing_time := none }],
            loading := false, error := "", selectedItem := none,
            showModal := false }).history ↔ confirmed = true :=
  (C9_delete_iff_confirmed 2
    { history :=
        [{ id := 1, filename := "a.png", language := "eng", extracted_text := "A",
           full_text := "A", created_at := "2024-01-01", file_size := none,
           processing_time := none },
         { id := 2, filename := "b.png", language := "eng", extracted_text := "B",
           full_text := "B", created_at := "2024-01-02", file_size := none,
           processing_time := none }],
      loading := false, error := "", selectedItem := none, showModal := false }).2.2.2.2.2
    [{ id := 1, filename := "a.png", language := "eng", extracted_text := "A",
       full_text := "A", created_at := "2024-01-01", file_size := none,
       processing_time := none },
     { id := 2, filename := "b.png", language := "eng", extracted_text := "B",
       full_text := "B", created_at := "2024-01-02", file_size := none,
       processing_time := none }]
    { id := 2, filename := "b.png", language := "eng", extracted_text := "B",
      full_text := "B", created_at := "2024-01-02", file_size := none,
      processing_time := none }
    (by decide) rfl

/-! ## The result renderer (C10) -/

/-- Splitting always yields at least one piece. -/
theorem splitDot_ne_nil (cs : List Char) : splitDot cs ≠ [] := by
  cases cs with
  | nil => simp [splitDot]
  | cons c cs =>
    unfold splitDot
    split
    · simp
    · split <;> simp

/-- The first piece of a string that does not start with a dot. -/
theorem splitDot_head_cons (c : Char) (cs : List Char) (hc : c ≠ '.') :
    (splitDot (c :: cs)).headD [] = c :: (splitDot cs).headD [] := by
  rw [splitDot, if_neg hc]
  cases h : splitDot cs with
  | nil => exact absurd h (splitDot_ne_nil cs)
  | cons piece pieces => rfl

/-- The first piece of a string without a dot is the string. -/
theorem splitDot_head_no_dot (cs : List Char) (h : '.' ∉ cs) :
    (splitDot cs).headD [] = cs := by
  induction cs with
  | nil => rfl
  | cons c cs ih =>
    have hc : c ≠ '.' := fun hc => h (by simp [hc])
    have hcs : '.' ∉ cs := fun hm => h (List.mem_cons_of_mem _ hm)
    rw [splitDot_head_cons c cs hc, ih hcs]

/-- On a name with at most one dot the first piece is the name without its
extension. -/
theorem splitDot_head_eq_dropExtension (cs : List Char) (h : cs.count '.' ≤ 1) :
    (splitDot cs).headD [] = dropExtension cs := by
  induction cs with
  | nil => rfl
  | cons c cs ih =>
    by_cases hc : c = '.'
    · subst hc
      have hcs : '.' ∉ cs := by
        intro hm
        have := List.count_pos_iff.mpr hm
        simp at h
        omega
      simp [splitDot, dropExtension, hcs]
    · have hcount : cs.count '.' ≤ 1 := by
        have := List.count_le_count_cons '.' c cs
        omega
      rw [splitDot_head_cons c cs hc]
      by_cases hm : '.' ∈ cs
      · rw [ih hcount, dropExtension, if_pos hm]
      · rw [splitDot_head_no_dot cs hm, dropExtension, if_neg hm, if_neg hc]

/-- On a name with at most one dot the download action does replace the
extension: the text is saved under "extracted_text_" followed by the image name
with its extension replaced by ".txt". -/
theorem handleDownload_at_most_one_dot (r : ExtractionResult)
    (htext : r.extracted_text ≠ "") (hname : r.filename ≠ "")
    (hdots : r.filename.data.count '.' ≤ 1) :
    handleDownload (some r) =
      some { text := r.extracted_text,
             filename := "extracted_text_" ++ replaceExtensionSpec r.filename } := by
  simp only [handleDownload, htext, hname, ne_eq, not_false_eq_true, and_self, if_true,
    firstPiece, replaceExtensionSpec, splitDot_head_eq_dropExtension _ hdots,
    String.append_assoc]

/-- A result named photo.png is saved as extracted_text_photo.txt. -/
theorem handleDownload_photo_png :
    handleDownload (some
        { extracted_text := "Hello", confidence := some 95, processing_time := none,
          language := "eng", filename := "photo.png", file_size := none }) =
      some { text := "Hello", filename := "extracted_text_photo.txt" } := by
  decide

/-- The first piece of a split holds no dot. -/
theorem splitDot_head_no_dot_in (cs : List Char) : '.' ∉ (splitDot cs).headD [] := by
  induction cs with
  | nil => simp [splitDot]
  | cons c cs ih =>
    by_cases hc : c = '.'
    · subst hc
      simp [splitDot]
    · rw [splitDot_head_cons c cs hc]
      intro hmem
      rcases List.mem_cons.mp hmem with h | h
      · exact hc h.symm
      · exact ih h

/-- A name with a dot after its first character keeps that character when its
extension is dropped. -/
theorem dropExtension_cons_of_mem (c : Char) (cs : List Char) (h : '.' ∈ cs) :
    dropExtension (c :: cs) = c :: dropExtension cs := by
  rw [dropExtension, if_pos h]

/-- A name with two dots or more still holds a dot when its extension is dropped. -/
theorem dot_mem_dropExtension (cs : List Char) (h : 2 ≤ cs.count '.') :
    '.' ∈ dropExtension cs := by
  induction cs with
  | nil => simp at h
  | cons c cs ih =>
    have hpos : 0 < cs.count '.' := by
      by_cases hc : c = '.'
      · subst hc
        rw [List.count_cons_self] at h
        omega
      · rw [List.count_cons_of_ne (Ne.symm hc)] at h
        omega
    have hmem : '.' ∈ cs := List.count_pos_iff.mp hpos
    rw [dropExtension_cons_of_mem c cs hmem]
    by_cases hc : c = '.'
    · subst hc
      exact List.mem_cons_self _ _
    · rw [List.count_cons_of_ne (Ne.symm hc)] at h
      exact List.mem_cons_of_mem _ (ih h)

/-- On every name with two dots or more the download action cuts at the first
dot, so the name it saves under is not "extracted_text_" followed by the image
name with its extension replaced by ".txt". -/
theorem handleDownload_two_dots (r : ExtractionResult) (htext : r.extracted_text ≠ "")
    (hdots : 2 ≤ r.filename.data.count '.') :
    ∃ d, handleDownload (some r) = some d ∧
      d.filename = "extracted_text_" ++ firstPiece r.filename ++ ".txt" ∧
      d.filename ≠ "extracted_text_" ++ replaceExtensionSpec r.filename := by
  have hname : r.filename ≠ "" := by
    intro h
    rw [h] at hdots
    simp at hdots
  refine ⟨{ text := r.extracted_text,
            filename := "extracted_text_" ++ firstPiece r.filename ++ ".txt" },
    by simp [handleDownload, htext, hname], rfl, ?_⟩
  intro heq
  have hdata := congrArg String.data heq
  simp only [replaceExtensionSpec, firstPiece, String.data_append, List.append_assoc] at hdata
  have h1 := List.append_cancel_left hdata
  have h2 := List.append_cancel_right h1
  have hin := dot_mem_dropExtension r.filename.data hdots
  rw [← h2] at hin
  exact splitDot_head_no_dot_in r.filename.data hin

/-- C10 at the image name a.b.png: the download is named extracted_text_a.txt,
cut at the first dot: not the image name with its extension replaced by ".txt",
with or without the prefix, and not a name that contains a.b. -/
theorem C10_second_dot_cut_at_first_dot :
    handleDownload (some
        { extracted_text := "Hello", confidence := some 95, processing_time := none,
          language := "eng", filename := "a.b.png", file_size := none }) =
      some { text := "Hello", filename := "extracted_text_a.txt" } ∧
    replaceExtensionSpec "a.b.png" = "a.b.txt" ∧
    "extracted_text_a.txt" ≠ replaceExtensionSpec "a.b.png" ∧
    "extracted_text_a.txt" ≠ "extracted_text_" ++ replaceExtensionSpec "a.b.png" ∧
    ¬ ("a.b".data <:+: "extracted_text_a.txt".data) := by
  decide

/-! ## Upload, language change and the language selector (C11, C12, C15) -/

/-- With no rejection and a first file that passes validation `onDrop` shows it
and passes it to `onImageUpload`. -/
theorem onDrop_valid (acceptedFiles : List File) (url : String) (s : UploadState)
    (file : File) (hf : acceptedFiles.head? = some file)
    (hv : (validateImageFile file).valid = true) :
    onDrop acceptedFiles [] url s =
      ({ uploadedFile := some file, previewUrl := some url, error := "" }, [some file]) := by
  simp [onDrop, hf, hv]

/-- C11: `handleImageUpload`, called with a file or with null on removal, sets
`selectedFile` to its argument, `result` to null and `error` to the empty
string, and leaves `selectedLanguage`, `isProcessing` and `showHistory` as they
were; it is what the remove button and a valid drop run on the controller. -/
theorem C11_upload_sets_file_clears_result_error :
    (∀ (file : Option File) (s : AppState),
      (handleImageUpload file s).selectedFile = file ∧
      (handleImageUpload file s).result = none ∧
      (handleImageUpload file s).error = "" ∧
      (handleImageUpload file s).selectedLanguage = s.selectedLanguage ∧
      (handleImageUpload file s).isProcessing = s.isProcessing ∧
      (handleImageUpload file s).showHistory = s.showHistory) ∧
    (∀ s : Session, (fire .removeFile s).app = handleImageUpload none s.app) ∧
    (∀ (acceptedFiles : List File) (url : String) (file : File) (s : Session),
      acceptedFiles.head? = some file → (validateImageFile file).valid = true →
        (fire (.drop acceptedFiles [] url) s).app = handleImageUpload (some file) s.app) := by
  refine ⟨fun file s => ⟨rfl, rfl, rfl, rfl, rfl, rfl⟩, fun s => rfl, ?_⟩
  intro acceptedFiles url file s hf hv
  show runUploadCalls (onDrop acceptedFiles [] url s.upload).2 s.app = _
  rw [onDrop_valid acceptedFiles url s.upload file hf hv]
  rfl

/-- Witness for C11: a PNG dropped on the mounted page reaches the controller. -/
theorem C11_upload_sets_file_clears_result_error_witness :
    (fire (.drop [{ name := "a.png", size := 10, type := "image/png" }] [] "blob:1")
        Session.init).app =
      handleImageUpload (some { name := "a.png", size := 10, type := "image/png" })
        Session.init.app :=
  C11_upload_sets_file_clears_result_error.2.2
    [{ name := "a.png", size := 10, type := "image/png" }] "blob:1"
    { name := "a.png", size := 10, type := "image/png" } Session.init rfl (by decide)

/-- A language change on a controller that holds a result keeps the result, and
on a controller that holds an error keeps the error. -/
theorem C12_counterexample_result_kept :
    (handleLanguageChange "hin"
        { AppState.init with
          result := some { extracted_text := "Hello", confidence := some 95,
                           processing_time := none, language := "eng",
                           filename := "a.png", file_size := none } }).result ≠ none ∧
    (handleLanguageChange "hin"
        { AppState.init with error := "Failed to process image. Please try again." }).error
      ≠ "" := by
  decide

/-- C12 (amended): a language change sets `selectedLanguage` to the chosen code
and changes nothing else: the stored result and the stored error are kept, so a
controller that was Succeeded or Failed still is. -/
theorem C12_language_change_keeps_result_error (language : String) (s : AppState) :
    handleLanguageChange language s = { s with selectedLanguage := language } ∧
    (handleLanguageChange language s).selectedLanguage = language ∧
    (handleLanguageChange language s).result = s.result ∧
    (handleLanguageChange language s).error = s.error ∧
    (handleLanguageChange language s).selectedFile = s.selectedFile ∧
    (handleLanguageChange language s).isProcessing = s.isProcessing ∧
    (handleLanguageChange language s).showHistory = s.showHistory :=
  ⟨rfl, rfl, rfl, rfl, rfl, rfl, rfl⟩

/-- Only a language button changes the selected language. -/
theorem fire_selectedLanguage (e : Event) (s : Session) :
    (fire e s).app.selectedLanguage = s.app.selectedLanguage ∨
    ∃ code, e = .selectLanguage code ∧ (fire e s).app.selectedLanguage = code := by
  cases e with
  | drop a r u =>
    left
    show (runUploadCalls (onDrop a r u s.upload).2 s.app).selectedLanguage = _
    rcases onDrop_cases a r u s.upload with ⟨_, h2⟩ | ⟨file, _, _, _, h2⟩ <;> rw [h2] <;> rfl
  | removeFile => exact Or.inl rfl
  | selectLanguage code => exact Or.inr ⟨code, rfl, rfl⟩
  | submit =>
    left
    cases hf : s.app.selectedFile <;> simp [fire, processImage, hf]
  | toggleHistory => exact Or.inl rfl
  | healthCheckFailed => exact Or.inl rfl
  | extractResolved response =>
    left
    cases response <;> rfl
  | extractRejected err => exact Or.inl rfl

/-- C15: the language selector lists exactly the three codes "eng", "hin" and
"eng+hin", pairwise distinct; the controller starts with "eng"; on every
reachable page `selectedLanguage` is one of the three; and a step changes it
only through a language button, to that button's code out of the three. -/
theorem C15_selected_language_in_list :
    languages.map (·.code) = ["eng", "hin", "eng+hin"] ∧
    languages.length = 3 ∧
    (languages.map (·.code)).Nodup ∧
    Session.init.app.selectedLanguage = "eng" ∧
    (∀ s : Session, Reachable s → s.app.selectedLanguage ∈ ["eng", "hin", "eng+hin"]) ∧
    (∀ (e : Event) (s s' : Session), step e s = some s' →
      s'.app.selectedLanguage ≠ s.app.selectedLanguage →
        ∃ code ∈ ["eng", "hin", "eng+hin"],
          e = .selectLanguage code ∧ s'.app.selectedLanguage = code) := by
  have hchange : ∀ (e : Event) (s s' : Session), step e s = some s' →
      s'.app.selectedLanguage ≠ s.app.selectedLanguage →
        ∃ code ∈ ["eng", "hin", "eng+hin"],
          e = .selectLanguage code ∧ s'.app.selectedLanguage = code := by
    intro e s s' h hne
    have he := step_enabled h
    have hs := step_eq_fire h
    subst hs
    rcases fire_selectedLanguage e s with hsame | ⟨code, rfl, hcode⟩
    · exact absurd hsame hne
    · refine ⟨code, ?_, rfl, hcode⟩
      have hmem : (languages.map (·.code)).contains code = true := by
        simp only [enabled, Bool.and_eq_true] at he
        exact he.1
      simpa [languages] using hmem
  refine ⟨rfl, rfl, by decide, rfl, ?_, hchange⟩
  intro s hr
  induction hr with
  | init => decide
  | @step s₀ s₁ e _ h ih =>
    by_cases hne : s₁.app.selectedLanguage = s₀.app.selectedLanguage
    · rw [hne]
      exact ih
    · obtain ⟨code, hmem, _, hcode⟩ := hchange e s₀ s₁ h hne
      rw [hcode]
      exact hmem

/-- Witness for C15: after the Hindi button the selected language is a listed code. -/
theorem C15_selected_language_in_list_witness :
    (fire (.selectLanguage "hin") Session.init).app.selectedLanguage ∈
      ["eng", "hin", "eng+hin"] :=
  C15_selected_language_in_list.2.2.2.2.1 (fire (.selectLanguage "hin") Session.init)
    (Reachable.step (.selectLanguage "hin") Reachable.init rfl)

/-! ## The result renderer (C13, C14) -/

/-- While the controller is processing it holds no result, whatever handlers
ran: the renderer never gets a result together with `isLoading`. -/
theorem fire_processing_result (e : Event) (s : Session)
    (hi : s.app.isProcessing = true → s.app.result = none) :
    (fire e s).app.isProcessing = true → (fire e s).app.result = none := by
  cases e with
  | drop a r u =>
    intro hp
    rw [show (fire (.drop a r u) s).app.isProcessing = s.app.isProcessing from
      runUploadCalls_isProcessing _ _] at hp
    show (runUploadCalls (onDrop a r u s.upload).2 s.app).result = none
    rcases onDrop_cases a r u s.upload with ⟨_, h2⟩ | ⟨file, _, _, _, h2⟩
    · rw [h2]
      exact hi hp
    · rw [h2]
      rfl
  | removeFile => exact fun _ => rfl
  | selectLanguage c => exact hi
  | submit =>
    cases hf : s.app.selectedFile with
    | none =>
      intro hp
      have h1 : (fire .submit s).app.isProcessing = s.app.isProcessing := by
        simp [fire, processImage, hf]
      have h2 : (fire .submit s).app.result = s.app.result := by
        simp [fire, processImage, hf]
      rw [h2]
      exact hi (h1 ▸ hp)
    | some file =>
      intro _
      simp [fire, processImage, hf]
  | toggleHistory => exact hi
  | healthCheckFailed => exact hi
  | extractResolved response =>
    intro hp
    have : (fire (.extractResolved response) s).app.isProcessing = false := by
      cases response <;> rfl
    rw [this] at hp
    exact absurd hp (by simp)
  | extractRejected err =>
    intro hp
    exact absurd hp (by simp [fire, processImageRejected])

/-- On every reachable page a stored result means the controller is not
processing, so `TextResult` is rendered with `isLoading` false. -/
theorem reachable_result_not_loading {s : Session} (hr : Reachable s) :
    s.app.isProcessing = true → s.app.result = none := by
  induction hr with
  | init => exact fun h => absurd h (by decide)
  | @step s₀ s₁ e _ h ih =>
    have hs := step_eq_fire h
    subst hs
    exact fire_processing_result e s₀ ih

/-- A non-empty extracted text is rendered unchanged, above the details row. -/
theorem TextResult_shows_text (r : ExtractionResult) (h : r.extracted_text ≠ "") :
    TextResult (some r) false =
      .extracted r.extracted_text
        (confidenceNodes r.confidence ++ processingTimeNodes r.processing_time ++
          languageNodes r.language)
        (fileSizeNodes r.file_size) := by
  simp [TextResult, h]

/-- An empty extracted text is rendered as the empty-result message. -/
theorem TextResult_empty_text (r : ExtractionResult) (h : r.extracted_text = "") :
    TextResult (some r) false = .noText := by
  simp [TextResult, h]

/-- A confidence other than 0 is rendered as its label and nothing else. -/
theorem confidenceNodes_label (c : Nat) (hc : c ≠ 0) :
    confidenceNodes (some c) = [.span ("Confidence: " ++ toString c ++ "%")] := by
  cases c with
  | zero => exact absurd rfl hc
  | succ n => rfl

/-- An absent confidence renders nothing: no label and no stray value. -/
theorem confidenceNodes_absent : confidenceNodes none = [] := rfl

/-- The scenario of the specification: text "Hello" with confidence 95 is
rendered as the text and the label "Confidence: 95%". -/
theorem TextResult_hello_95 :
    TextResult (some
        { extracted_text := "Hello", confidence := some 95, processing_time := none,
          language := "", filename := "a.png", file_size := none }) false =
      .extracted "Hello" [.span "Confidence: 95%"] [] := by
  decide

/-- C13 at a text of one space: the text is blank, and `processImage` itself
counts it as no text extracted, yet the renderer shows the text card with the
space in it, not the empty-result message. -/
theorem C13_whitespace_text_rendered_as_text :
    isBlankSpec " " = true ∧
    textWasExtracted
        { extracted_text := " ", confidence := none, processing_time := none,
          language := "eng", filename := "a.png", file_size := none } = false ∧
    TextResult (some
        { extracted_text := " ", confidence := none, processing_time := none,
          language := "eng", filename := "a.png", file_size := none }) false =
      .extracted " " [.span "Language: ENG"] [] ∧
    TextResult (some
        { extracted_text := " ", confidence := none, processing_time := none,
          language := "eng", filename := "a.png", file_size := none }) false ≠ .noText := by
  decide

/-- C14 at a confidence of 0: the text "Hello" is shown, but in place of the
label "Confidence: 0%" the details row holds the bare text 0. -/
theorem C14_zero_confidence_rendered_as_stray_zero :
    TextResult (some
        { extracted_text := "Hello", confidence := some 0, processing_time := none,
          language := "eng", filename := "a.png", file_size := none }) false =
      .extracted "Hello" [.text "0", .span "Language: ENG"] [] ∧
    Node.span "Confidence: 0%" ∉ confidenceNodes (some 0) ∧
    Node.text "0" ∈ confidenceNodes (some 0) := by
  decide

/-! ## The copy acknowledgment (C16) -/

/-- A second copy made 1000 ms after the first: its acknowledgment is shown,
and 1000 ms later, when the timer of the first copy fires, the label is back to
Copy although the second copy is only 1000 ms old. -/
theorem C16_counterexample_second_copy :
    (handleCopy (some
        { extracted_text := "Hello", confidence := none, processing_time := none,
          language := "eng", filename := "a.png", file_size := none }) true
      (elapse 1000 (handleCopy (some
        { extracted_text := "Hello", confidence := none, processing_time := none,
          language := "eng", filename := "a.png", file_size := none }) true
        CopyState.init))) =
      { copied := true, now := 1000, timers := [2000, 3000] } ∧
    copyLabel (elapse 1000 (handleCopy (some
        { extracted_text := "Hello", confidence := none, processing_time := none,
          language := "eng", filename := "a.png", file_size := none }) true
      (elapse 1000 (handleCopy (some
        { extracted_text := "Hello", confidence := none, processing_time := none,
          language := "eng", filename := "a.png", file_size := none }) true
        CopyState.init)))) = "Copy" := by
  decide

/-- C16 (amended): with timers that fire when due, a successful copy shows
'Copied!', adds one timer due 2000 ms later and cancels none of the pending
ones; after `ms` more milliseconds the label is 'Copy' again exactly when the
timer of an earlier copy has fallen due by then or `ms` is at least 2000.  So the
acknowledgment reverts when the earliest pending timer fires: 2000 ms after the
copy at the latest, earlier when the timer of an earlier copy is due before,
and exactly after 2000 ms when no earlier timer is pending. -/
theorem C16_copy_acknowledgment_reverts (r : ExtractionResult) (s : CopyState)
    (hr : r.extracted_text ≠ "") :
    handleCopy (some r) true s =
      { copied := true, now := s.now, timers := s.timers ++ [s.now + 2000] } ∧
    copyLabel (handleCopy (some r) true s) = "Copied!" ∧
    (∀ ms, copyLabel (elapse ms (handleCopy (some r) true s)) = "Copy" ↔
      (∃ t ∈ s.timers, t ≤ s.now + ms) ∨ 2000 ≤ ms) ∧
    (∀ ms, copyLabel (elapse ms (handleCopy (some r) true s)) = "Copied!" ↔
      (∀ t ∈ s.timers, s.now + ms < t) ∧ ms < 2000) ∧
    (∀ ms, ∀ t ∈ s.timers, t ≤ s.now + ms →
      copyLabel (elapse ms (handleCopy (some r) true s)) = "Copy") ∧
    copyLabel (elapse 2000 (handleCopy (some r) true s)) = "Copy" ∧
    (∀ ms, ms < 2000 → (∀ t ∈ s.timers, s.now + ms < t) →
      copyLabel (elapse ms (handleCopy (some r) true s)) = "Copied!") ∧
    (s.timers = [] → ∀ ms, ms < 2000 →
      copyLabel (elapse ms (handleCopy (some r) true s)) = "Copied!") := by
  have hc : handleCopy (some r) true s =
      { copied := true, now := s.now, timers := s.timers ++ [s.now + 2000] } := by
    simp [handleCopy, hr]
  have hany : ∀ ms, (s.timers ++ [s.now + 2000]).any (fun t => decide (t ≤ s.now + ms)) = true ↔
      (∃ t ∈ s.timers, t ≤ s.now + ms) ∨ 2000 ≤ ms := by
    intro ms
    rw [List.any_eq_true]
    constructor
    · rintro ⟨t, ht, hle⟩
      have hle' : t ≤ s.now + ms := of_decide_eq_true hle
      rcases List.mem_append.mp ht with ht | ht
      · exact Or.inl ⟨t, ht, hle'⟩
      · have : t = s.now + 2000 := by simpa using ht
        right
        omega
    · rintro (⟨t, ht, hle⟩ | h2000)
      · exact ⟨t, List.mem_append.mpr (Or.inl ht), decide_eq_true hle⟩
      · exact ⟨s.now + 2000, List.mem_append.mpr (Or.inr (List.mem_singleton.mpr rfl)),
          decide_eq_true (by omega)⟩
  have hcopy : ∀ ms, copyLabel (elapse ms (handleCopy (some r) true s)) = "Copy" ↔
      (∃ t ∈ s.timers, t ≤ s.now + ms) ∨ 2000 ≤ ms := by
    intro ms
    rw [← hany ms, hc]
    cases h : (s.timers ++ [s.now + 2000]).any (fun t => decide (t ≤ s.now + ms)) <;>
      simp [copyLabel, elapse, h]
  have hcopied : ∀ ms, copyLabel (elapse ms (handleCopy (some r) true s)) = "Copied!" ↔
      (∀ t ∈ s.timers, s.now + ms < t) ∧ ms < 2000 := by
    intro ms
    have hlabel : copyLabel (elapse ms (handleCopy (some r) true s)) = "Copied!" ↔
        ¬ copyLabel (elapse ms (handleCopy (some r) true s)) = "Copy" := by
      unfold copyLabel
      split <;> simp
    rw [hlabel, hcopy ms]
    constructor
    · intro hn
      refine ⟨fun t ht => ?_, ?_⟩
      · by_contra hlt
        exact hn (Or.inl ⟨t, ht, Nat.le_of_not_lt hlt⟩)
      · by_contra hlt
        exact hn (Or.inr (Nat.le_of_not_lt hlt))
    · rintro ⟨hp, hms⟩ (⟨t, ht, hle⟩ | h2000)
      · exact absurd (hp t ht) (Nat.not_lt.mpr hle)
      · omega
  refine ⟨hc, ?_, hcopy, hcopied, ?_, ?_, ?_, ?_⟩
  · simp [copyLabel, hc]
  · intro ms t ht hle
    exact (hcopy ms).2 (Or.inl ⟨t, ht, hle⟩)
  · exact (hcopy 2000).2 (Or.inr (Nat.le_refl _))
  · intro ms hms hp
    exact (hcopied ms).2 ⟨hp, hms⟩
  · intro hnil ms hms
    exact (hcopied ms).2 ⟨by simp [hnil], hms⟩

/-- Witness for C16: a first copy on the mounted component still shows
'Copied!' 1999 ms later, and a copy made while a timer due in 1000 ms is pending
shows 'Copy' again after those 1000 ms. -/
theorem C16_copy_acknowledgment_reverts_witness :
    copyLabel (elapse 1999 (handleCopy (some
        { extracted_text := "Hello", confidence := none, processing_time := none,
          language := "eng", filename := "a.png", file_size := none }) true
      CopyState.init)) = "Copied!" ∧
    copyLabel (elapse 1000 (handleCopy (some
        { extracted_text := "Hello", confidence := none, processing_time := none,
          language := "eng", filename := "a.png", file_size := none }) true
      { copied := true, now := 1000, timers := [2000] })) = "Copy" :=
  ⟨(C16_copy_acknowledgment_reverts
      { extracted_text := "Hello", confidence := none, processing_time := none,
        language := "eng", filename := "a.png", file_size := none }
      CopyState.init (by decide)).2.2.2.2.2.2.2 rfl 1999 (by decide),
   (C16_copy_acknowledgment_reverts
      { extracted_text := "Hello", confidence := none, processing_time := none,
        language := "eng", filename := "a.png", file_size := none }
      { copied := true, now := 1000, timers := [2000] } (by decide)).2.2.2.2.1
      1000 2000 (by decide) (by decide)⟩

/-! ## The history list (C17) -/

/-- The fetch keeps the server's order: the list is the sequence as sent, or the
empty list when the body has no history. -/
theorem fetchHistoryResolved_history (s : HistoryState) :
    (∀ history : List HistoryItem, (fetchHistoryResolved (some history) s).history = history) ∧
    (fetchHistoryResolved none s).history = [] :=
  ⟨fun _ => rfl, rfl⟩

/-- A confirmed delete shows the list the handler closed over with the items of
that id filtered out: a sublist of that list in the same order, holding every
other item as often as that list does. -/
theorem deleteItemResolved_history (itemId : Nat) (history : List HistoryItem)
    (s : HistoryState) :
    (deleteItemResolved itemId history s).history =
      history.filter (fun item => item.id != itemId) ∧
    (deleteItemResolved itemId history s).history.Sublist history ∧
    (∀ item, item.id ≠ itemId →
      (deleteItemResolved itemId history s).history.count item = history.count item) := by
  refine ⟨rfl, List.filter_sublist _, ?_⟩
  intro item hne
  exact List.count_filter (by simpa using hne)

/-- When the list on the page is still the one the delete button was clicked on,
a confirmed delete shows the previous list without the items of that id. -/
theorem deleteItem_on_clicked_list (itemId : Nat) (s : HistoryState) :
    (deleteItem itemId s.history true s).history =
      s.history.filter (fun item => item.id != itemId) ∧
    (deleteItem itemId s.history true s).history.Sublist s.history :=
  ⟨rfl, List.filter_sublist _⟩

/-- C17 at two overlapping deletes: the list [1, 2, 3] is fetched, the delete
buttons of items 1 and 2 are clicked before either request settles, and both are
confirmed.  The first confirmation shows [2, 3]; the second shows [1, 3], which
is not the previous list without item 2, is not a sublist of it, and shows again
item 1, whose deletion the server had confirmed. -/
theorem C17_overlapping_deletes_restore_item :
    (historyRun
        [.fetchResolved (some
           [{ id := 1, filename := "a.png", language := "eng", extracted_text := "A",
              full_text := "A", created_at := "2024-01-01", file_size := none,
              processing_time := none },
            { id := 2, filename := "b.png", language := "eng", extracted_text := "B",
              full_text := "B", created_at := "2024-01-02", file_size := none,
              processing_time := none },
            { id := 3, filename := "c.png", language := "eng", extracted_text := "C",
              full_text := "C", created_at := "2024-01-03", file_size := none,
              processing_time := none }]),
         .clickDelete 1, .clickDelete 2, .deleteSettled 0 true]
        HistoryPage.init).map (fun p => p.view.history.map (·.id)) = some [2, 3] ∧
    (historyRun
        [.fetchResolved (some
           [{ id := 1, filename := "a.png", language := "eng", extracted_text := "A",
              full_text := "A", created_at := "2024-01-01", file_size := none,
              processing_time := none },
            { id := 2, filename := "b.png", language := "eng", extracted_text := "B",
              full_text := "B", created_at := "2024-01-02", file_size := none,
              processing_time := none },
            { id := 3, filename := "c.png", language := "eng", extracted_text := "C",
              full_text := "C", created_at := "2024-01-03", file_size := none,
              processing_time := none }]),
         .clickDelete 1, .clickDelete 2, .deleteSettled 0 true, .deleteSettled 0 true]
        HistoryPage.init).map (fun p => p.view.history.map (·.id)) = some [1, 3] ∧
    [1, 3] ≠ [2, 3].filter (fun n => n != 2) ∧
    ¬ [1, 3].Sublist [2, 3] := by
  decide

/-! ## File sizes and previews (C18, C19) -/

/-- An accepted file has a listed type and a size within the limit. -/
theorem validateImageFile_valid (file : File) (h : (validateImageFile file).valid = true) :
    file.type ∈ validTypes ∧ file.size ≤ maxSize := by
  by_cases ht : file.type ∈ validTypes
  · refine ⟨ht, ?_⟩
    by_contra hs
    rw [validateImageFile_too_large file ht (Nat.lt_of_not_le hs)] at h
    simp at h
  · rw [validateImageFile_bad_type file ht] at h
    simp at h

/-- The unit index of a positive size is the power of 1024 the size has reached. -/
theorem unitIndex_spec (bytes : Nat) (h : bytes ≠ 0) :
    1024 ^ unitIndex bytes ≤ bytes ∧ bytes < 1024 ^ (unitIndex bytes + 1) :=
  ⟨Nat.pow_log_le_self 1024 h, Nat.lt_pow_succ_log_self (by norm_num) bytes⟩

/-- The unit index is the only `i` with `1024 ^ i ≤ bytes < 1024 ^ (i + 1)`. -/
theorem unitIndex_eq (bytes i : Nat) (h₁ : 1024 ^ i ≤ bytes) (h₂ : bytes < 1024 ^ (i + 1)) :
    unitIndex bytes = i :=
  Nat.log_eq_of_pow_le_of_lt_pow h₁ h₂

/-- A file of 5 MB is shown as 5 MB. -/
theorem formatFileSize_five_megabytes : formatFileSize (5 * 1024 * 1024) = "5 MB" := by
  have hi : unitIndex (5 * 1024 * 1024) = 2 := unitIndex_eq _ 2 (by norm_num) (by norm_num)
  have h0 : ¬ (5 * 1024 * 1024 = 0) := by norm_num
  simp only [formatFileSize, h0, if_false, hi]
  decide

/-- A file of 1536 bytes is shown as 1.5 KB. -/
theorem formatFileSize_kilobytes : formatFileSize 1536 = "1.5 KB" := by
  have hi : unitIndex 1536 = 1 := unitIndex_eq _ 1 (by norm_num) (by norm_num)
  have h0 : ¬ (1536 = 0) := by norm_num
  simp only [formatFileSize, h0, if_false, hi]
  decide

/-- C18: for a file that `validateImageFile` accepts, `formatFileSize` of its
size ends in a unit of the table: size 0 gives '0 Bytes', and a positive size,
being at most 20 * 1024 * 1024, selects the index floor(log_1024 size), which is
0, 1 or 2, inside the four-entry `sizes` array, so the unit is 'Bytes', 'KB' or
'MB'. -/
theorem C18_accepted_size_unit_in_table (file : File)
    (h : (validateImageFile file).valid = true) :
    sizes.length = 4 ∧
    (file.size = 0 → formatFileSize file.size = "0 Bytes") ∧
    (0 < file.size →
      unitIndex file.size ∈ [0, 1, 2] ∧
      unitIndex file.size < sizes.length ∧
      1024 ^ unitIndex file.size ≤ file.size ∧
      file.size < 1024 ^ (unitIndex file.size + 1) ∧
      ∃ unit ∈ ["Bytes", "KB", "MB"],
        sizes.get? (unitIndex file.size) = some unit ∧
        formatFileSize file.size =
          showHundredths (roundHundredths file.size (1024 ^ unitIndex file.size)) ++
            " " ++ unit) := by
  refine ⟨rfl, ?_, ?_⟩
  · intro h0
    simp [formatFileSize, h0]
  · intro hpos
    have hne : file.size ≠ 0 := Nat.pos_iff_ne_zero.mp hpos
    have hmax : file.size ≤ 20 * 1024 * 1024 := (validateImageFile_valid file h).2
    have hlt : file.size < 1024 ^ 3 := by
      have : (20 * 1024 * 1024 : Nat) < 1024 ^ 3 := by norm_num
      omega
    have hi : unitIndex file.size < 3 := (Nat.lt_pow_iff_log_lt (by norm_num) hne).1 hlt
    obtain ⟨hlo, hhi⟩ := unitIndex_spec file.size hne
    have hcases : unitIndex file.size = 0 ∨ unitIndex file.size = 1 ∨
        unitIndex file.size = 2 := by omega
    refine ⟨?_, ?_, hlo, hhi, ?_⟩
    · rcases hcases with h0 | h1 | h2
      · rw [h0]; decide
      · rw [h1]; decide
      · rw [h2]; decide
    · show unitIndex file.size < 4
      omega
    · rcases hcases with h0 | h1 | h2
      · exact ⟨"Bytes", by decide, by rw [h0]; rfl, by simp [formatFileSize, hne, h0, sizes]⟩
      · exact ⟨"KB", by decide, by rw [h1]; rfl, by simp [formatFileSize, hne, h1, sizes]⟩
      · exact ⟨"MB", by decide, by rw [h2]; rfl, by simp [formatFileSize, hne, h2, sizes]⟩

/-- Witness for C18: an accepted JPEG of 5 MB selects an index among 0, 1, 2. -/
theorem C18_accepted_size_unit_in_table_witness :
    unitIndex (5 * 1024 * 1024) ∈ [0, 1, 2] :=
  ((C18_accepted_size_unit_in_table
    { name := "photo.jpg", size := 5 * 1024 * 1024, type := "image/jpeg" }
    (by decide)).2.2 (by decide)).1

/-- The three dots are three units. -/
theorem toUnits_dots : toUnits "..." = [46, 46, 46] := by
  decide

/-- The units of a text cut at `maxLength`, with the three dots behind them. -/
theorem truncateText_long (text : List Nat) (maxLength : Nat) (h : maxLength < text.length) :
    truncateText text maxLength = text.take maxLength ++ toUnits "..." := by
  simp [truncateText, Nat.not_le.mpr h]

/-- A text that fits is returned as it is. -/
theorem truncateText_short (text : List Nat) (maxLength : Nat) (h : text.length ≤ maxLength) :
    truncateText text maxLength = text := by
  simp [truncateText, h]

/-- Two characters outside the basic plane are four units: cut at two, the text
keeps the first character and gets the three dots. -/
theorem truncateText_surrogate_pairs :
    (toUnits (String.mk [Char.ofNat 0x1F600, Char.ofNat 0x1F600])).length = 4 ∧
    truncateText (toUnits (String.mk [Char.ofNat 0x1F600, Char.ofNat 0x1F600])) 2 =
      toUnits (String.mk [Char.ofNat 0x1F600]) ++ toUnits "..." ∧
    truncateText (toUnits (String.mk [Char.ofNat 0x1F600, Char.ofNat 0x1F600])) 1 =
      [0xD83D, 46, 46, 46] := by
  decide

/-- C19: on the code units of a text, which are the characters `length` counts
and `slice` cuts, `truncateText` returns the text itself when its length is at
most `maxLength`, and otherwise its first `maxLength` characters followed by
'...'; the result has at most `maxLength + 3` characters, starts with the first
min(length, maxLength) characters of the text, and truncating it again with the
same `maxLength` returns it unchanged. -/
theorem C19_truncateText (text : List Nat) (maxLength : Nat) :
    (text.length ≤ maxLength → truncateText text maxLength = text) ∧
    (maxLength < text.length →
      truncateText text maxLength = text.take maxLength ++ toUnits "...") ∧
    toUnits "..." = [46, 46, 46] ∧
    (truncateText text maxLength).length ≤ maxLength + 3 ∧
    (truncateText text maxLength).take (min text.length maxLength) =
      text.take (min text.length maxLength) ∧
    truncateText (truncateText text maxLength) maxLength = truncateText text maxLength := by
  refine ⟨truncateText_short text maxLength, truncateText_long text maxLength, toUnits_dots,
    ?_, ?_, ?_⟩
  · by_cases h : text.length ≤ maxLength
    · rw [truncateText_short text maxLength h]
      omega
    · have hlt : maxLength < text.length := Nat.lt_of_not_le h
      rw [truncateText_long text maxLength hlt, toUnits_dots]
      simp only [List.length_append, List.length_take, List.length_cons, List.length_nil]
      omega
  · by_cases h : text.length ≤ maxLength
    · rw [truncateText_short text maxLength h]
    · have hlt : maxLength < text.length := Nat.lt_of_not_le h
      rw [truncateText_long text maxLength hlt, Nat.min_eq_right (Nat.le_of_lt hlt)]
      exact List.take_left' (by rw [List.length_take]; omega)
  · by_cases h : text.length ≤ maxLength
    · rw [truncateText_short text maxLength h, truncateText_short text maxLength h]
    · have hlt : maxLength < text.length := Nat.lt_of_not_le h
      rw [truncateText_long text maxLength hlt]
      have hlen : maxLength < (text.take maxLength ++ toUnits "...").length := by
        rw [toUnits_dots]
        simp only [List.length_append, List.length_take, List.length_cons, List.length_nil]
        omega
      rw [truncateText_long _ maxLength hlen]
      congr 1
      exact List.take_left' (by rw [List.length_take]; omega)

/-- Witness for C19: an eleven-character text cut at five. -/
theorem C19_truncateText_witness :
    truncateText (toUnits "hello world") 5 = toUnits "hello" ++ toUnits "..." :=
  (C19_truncateText (toUnits "hello world") 5).2.1 (by decide)

end Image2Text
